import Mathlib

/-!
# A shallow embedding of the `CacheManager` file cache (`cache_manager.py`)

This file embeds the cache subsystem of the ATE_CHECK repository in Lean 4 and
proves the specification claims about it.

Modelling conventions:

* Paths are taken relative to the (fixed) cache directory, so
  `os.path.join(self.cache_dir, name)` is elided and a path is just the file
  name inside the directory.  The cache directory itself always exists in the
  model (`ensure_cache_dir` never fails: the Python method returns `True` on
  every branch).
* The file system is a list of `(path, file)` pairs together with
  error-injection lists describing which paths raise on `stat`/`open`,
  which raise inside `pickle.dump` after the file was created, and which
  raise on `os.remove`.
* Time is an integer number of seconds; `timedelta(days=d)` is `d * 86400`.
* The pickle format is modelled abstractly, exactly as the specification
  allows ("any format supporting deterministic encode/decode with detectable
  decode failure"): a stored blob is either a pickled payload or undecodable
  garbage bytes; `pickle.load` succeeds on the former and raises on the
  latter.  A parameter `sz : α → Nat` gives the encoded byte size of a
  payload.
* The reentrant lock is modelled by a lock-depth counter; every primitive
  that touches the directory records an *unlocked access* when it runs with
  lock depth zero.  `with self._lock:` is `withLock`.
-/

/-- The whitespace characters removed by Python's `str.strip()`
(ASCII range, which is all the claims exercise). -/
def pyIsSpace (c : Char) : Bool :=
  c.toNat == 32 || c.toNat == 9 || c.toNat == 10 || c.toNat == 13 ||
    c.toNat == 11 || c.toNat == 12

/-- Python `str.lower()` on one character (ASCII range). -/
def pyLowerChar (c : Char) : Char :=
  if 65 ≤ c.toNat ∧ c.toNat ≤ 90 then Char.ofNat (c.toNat + 32) else c

/-- Python `str.strip()` on the underlying character list: drop leading and
trailing whitespace. -/
def stripChars (l : List Char) : List Char :=
  ((l.dropWhile pyIsSpace).reverse.dropWhile pyIsSpace).reverse

/-- Python `str.strip()`. -/
def pyStrip (s : String) : String := ⟨stripChars s.data⟩

/-- Python `str.lower()`. -/
def pyLower (s : String) : String := ⟨s.data.map pyLowerChar⟩

/-- `brand.strip().lower() if brand else ""`: Python treats both `None` and
the empty string as falsy, so absent fields normalize to `""`. -/
def pyNormField : Option String → String
  | none => ""
  | some s => if s = "" then "" else pyLower (pyStrip s)

/-- The joined, normalized string
`f"{brand_norm}|{model_norm}|{options_norm}"` hashed by `get_cache_key`. -/
def cache_string (brand model options : Option String) : String :=
  pyNormField brand ++ "|" ++ pyNormField model ++ "|" ++ pyNormField options

/-- UTF-8 encoding of one character (`str.encode('utf-8')`), as byte values. -/
def utf8EncodeChar (c : Char) : List Nat :=
  let n := c.toNat
  if n < 128 then [n]
  else if n < 2048 then [192 + n / 64, 128 + n % 64]
  else if n < 65536 then [224 + n / 4096, 128 + (n / 64) % 64, 128 + n % 64]
  else [240 + n / 262144, 128 + (n / 4096) % 64, 128 + (n / 64) % 64, 128 + n % 64]

/-- UTF-8 encoding of a string as a list of byte values. -/
def utf8Bytes (s : String) : List Nat := s.data.flatMap utf8EncodeChar

/-! ## MD5 (`hashlib.md5(...).hexdigest()`)

A direct implementation of RFC 1321 over byte lists, with 32-bit words
represented as natural numbers reduced modulo `2 ^ 32`. -/

def add32 (x y : Nat) : Nat := (x + y) % 4294967296

def rotl32 (x s : Nat) : Nat := ((x <<< s) ||| (x >>> (32 - s))) % 4294967296

def not32 (x : Nat) : Nat := x ^^^ 4294967295

/-- The 64 MD5 sine-derived constants. -/
def md5K (i : Nat) : Nat :=
  [0xd76aa478, 0xe8c7b756, 0x242070db, 0xc1bdceee,
   0xf57c0faf, 0x4787c62a, 0xa8304613, 0xfd469501,
   0x698098d8, 0x8b44f7af, 0xffff5bb1, 0x895cd7be,
   0x6b901122, 0xfd987193, 0xa679438e, 0x49b40821,
   0xf61e2562, 0xc040b340, 0x265e5a51, 0xe9b6c7aa,
   0xd62f105d, 0x02441453, 0xd8a1e681, 0xe7d3fbc8,
   0x21e1cde6, 0xc33707d6, 0xf4d50d87, 0x455a14ed,
   0xa9e3e905, 0xfcefa3f8, 0x676f02d9, 0x8d2a4c8a,
   0xfffa3942, 0x8771f681, 0x6d9d6122, 0xfde5380c,
   0xa4beea44, 0x4bdecfa9, 0xf6bb4b60, 0xbebfbc70,
   0x289b7ec6, 0xeaa127fa, 0xd4ef3085, 0x04881d05,
   0xd9d4d039, 0xe6db99e5, 0x1fa27cf8, 0xc4ac5665,
   0xf4292244, 0x432aff97, 0xab9423a7, 0xfc93a039,
   0x655b59c3, 0x8f0ccc92, 0xffeff47d, 0x85845dd1,
   0x6fa87e4f, 0xfe2ce6e0, 0xa3014314, 0x4e0811a1,
   0xf7537e82, 0xbd3af235, 0x2ad7d2bb, 0xeb86d391].getD i 0

/-- The 64 MD5 per-round left-rotation amounts. -/
def md5S (i : Nat) : Nat :=
  [7, 12, 17, 22, 7, 12, 17, 22, 7, 12, 17, 22, 7, 12, 17, 22,
   5,  9, 14, 20, 5,  9, 14, 20, 5,  9, 14, 20, 5,  9, 14, 20,
   4, 11, 16, 23, 4, 11, 16, 23, 4, 11, 16, 23, 4, 11, 16, 23,
   6, 10, 15, 21, 6, 10, 15, 21, 6, 10, 15, 21, 6, 10, 15, 21].getD i 0

/-- MD5 padding: a `0x80` byte, zeros to 56 mod 64, then the bit length as
eight little-endian bytes. -/
def md5Pad (msg : List Nat) : List Nat :=
  let len := msg.length
  let zeros := (120 - (len + 1) % 64) % 64
  msg ++ [128] ++ List.replicate zeros 0 ++
    (List.range 8).map (fun i => ((len * 8) >>> (8 * i)) % 256)

/-- Split a byte list into 64-byte blocks. -/
def md5Chunks (l : List Nat) : List (List Nat) :=
  if h : l = [] then []
  else
    have : (l.drop 64).length < l.length := by
      have hl : 0 < l.length := List.length_pos.mpr h
      simp [List.length_drop]; omega
    l.take 64 :: md5Chunks (l.drop 64)
termination_by l.length

/-- The sixteen little-endian 32-bit message words of one 64-byte block. -/
def md5Words (block : List Nat) (j : Nat) : Nat :=
  block.getD (4 * j) 0 + 256 * block.getD (4 * j + 1) 0 +
    65536 * block.getD (4 * j + 2) 0 + 16777216 * block.getD (4 * j + 3) 0

/-- One of the 64 MD5 rounds. -/
def md5Round (M : Nat → Nat) (st : Nat × Nat × Nat × Nat) (i : Nat) :
    Nat × Nat × Nat × Nat :=
  let (a, b, c, d) := st
  let fg : Nat × Nat :=
    if i < 16 then ((b &&& c) ||| (not32 b &&& d), i)
    else if i < 32 then ((d &&& b) ||| (not32 d &&& c), (5 * i + 1) % 16)
    else if i < 48 then (b ^^^ c ^^^ d, (3 * i + 5) % 16)
    else (c ^^^ (b ||| not32 d), (7 * i) % 16)
  (d, add32 b (rotl32 (add32 (add32 a fg.1) (add32 (md5K i) (M fg.2))) (md5S i)), b, c)

/-- Process one 64-byte block. -/
def md5ProcessBlock (st : Nat × Nat × Nat × Nat) (block : List Nat) :
    Nat × Nat × Nat × Nat :=
  let r := (List.range 64).foldl (md5Round (md5Words block)) st
  (add32 st.1 r.1, add32 st.2.1 r.2.1, add32 st.2.2.1 r.2.2.1, add32 st.2.2.2 r.2.2.2)

/-- A 32-bit word as four little-endian bytes. -/
def le4 (n : Nat) : List Nat :=
  [n % 256, (n >>> 8) % 256, (n >>> 16) % 256, (n >>> 24) % 256]

/-- The 16-byte MD5 digest of a byte list. -/
def md5Digest (msg : List Nat) : List Nat :=
  let st := (md5Chunks (md5Pad msg)).foldl md5ProcessBlock
    (0x67452301, 0xefcdab89, 0x98badcfe, 0x10325476)
  le4 st.1 ++ le4 st.2.1 ++ le4 st.2.2.1 ++ le4 st.2.2.2

/-- Lower-case hex digit of a value below 16. -/
def hexDigitChar (n : Nat) : Char :=
  if n < 10 then Char.ofNat (48 + n) else Char.ofNat (87 + n)

/-- Two lower-case hex digits of one byte. -/
def byteToHex (b : Nat) : List Char := [hexDigitChar (b / 16), hexDigitChar (b % 16)]

/-- `hashlib.md5(s.encode('utf-8')).hexdigest()`. -/
def md5_hexdigest (s : String) : String :=
  ⟨(md5Digest (utf8Bytes s)).flatMap byteToHex⟩

/-- `CacheManager.get_cache_key`: normalize the three fields, join them with
`"|"`, and hash.  The Python `try/except` fallback (hash the raw concatenation)
is unreachable in the embedding because normalization and digesting are total
here, so only the normal branch is modelled. -/
def get_cache_key (brand model options : Option String) : String :=
  md5_hexdigest (cache_string brand model options)

/-! ## The file-system state -/

/-- Python `str.endswith(suffix)`.  (`String.endsWith` itself does not reduce
inside the kernel, so the check is done on the underlying character lists.) -/
def pyEndsWith (s suffix : String) : Bool :=
  List.isSuffixOf suffix.data s.data


/-- A stored blob: either a pickled payload or undecodable bytes of a given
size (`pickle.load` raises on the latter). -/
inductive Blob (α : Type) where
  | pickled : α → Blob α
  | garbage : Nat → Blob α
deriving DecidableEq

/-- Encoded byte size of a blob, given the encoded size `sz p` of a payload. -/
def blobSize {α : Type} (sz : α → Nat) : Blob α → Nat
  | Blob.pickled p => sz p
  | Blob.garbage n => n

/-- One file in the cache directory: its content and last-modified time. -/
structure FileData (α : Type) where
  blob : Blob α
  mtime : Int
deriving DecidableEq

/-- Errors raised by the modelled OS primitives. -/
inductive IOErr where
  | notFound
  | ioerr
deriving DecidableEq

/-- The state of the cache directory and of the owning `CacheManager`
instance.  `ioFail` lists paths on which `stat`/`open`/`os.replace` raise,
`dumpFail` paths on which `pickle.dump` raises after the file was opened
(leaving a partial file), `removeFail` paths on which `os.remove` raises.
`lockDepth` is the hold depth of the instance's reentrant lock, and
`unlocked` counts directory accesses performed while the lock was not
held. -/
structure St (α : Type) where
  files : List (String × FileData α)
  ioFail : List String
  dumpFail : List String
  removeFail : List String
  now : Int
  lockDepth : Nat
  unlocked : Nat

/-- Lookup in a directory listing: the file stored at a path, if any. -/
def lookupL {α : Type} (files : List (String × FileData α)) (p : String) :
    Option (FileData α) :=
  (files.find? (fun e => e.1 == p)).map (fun e => e.2)

/-- Directory lookup on a state. -/
def lookupFile {α : Type} (σ : St α) (p : String) : Option (FileData α) :=
  lookupL σ.files p

/-- Record a directory access: counted as unlocked when the lock is not
held. -/
def touch {α : Type} (σ : St α) : St α :=
  if σ.lockDepth = 0 then { σ with unlocked := σ.unlocked + 1 } else σ

/-- Overwrite the file at `p`, or create it if absent. -/
def setFile {α : Type} : List (String × FileData α) → String → FileData α →
    List (String × FileData α)
  | [], p, f => [(p, f)]
  | e :: t, p, f => if e.1 == p then (p, f) :: t else e :: setFile t p f

/-- Delete the file at `p`. -/
def eraseFile {α : Type} (files : List (String × FileData α)) (p : String) :
    List (String × FileData α) :=
  files.filter (fun e => !(e.1 == p))

/-- `os.path.exists`: `False` both for a missing path and when `stat`
raises (Python swallows the error). -/
def os_path_exists {α : Type} (p : String) (σ : St α) : Bool × St α :=
  (if σ.ioFail.contains p then false else (lookupFile σ p).isSome, touch σ)

/-- `os.path.getmtime`. -/
def os_path_getmtime {α : Type} (p : String) (σ : St α) :
    Except IOErr Int × St α :=
  (if σ.ioFail.contains p then Except.error IOErr.ioerr
   else match lookupFile σ p with
     | some f => Except.ok f.mtime
     | none => Except.error IOErr.notFound, touch σ)

/-- `os.path.getsize`. -/
def os_path_getsize {α : Type} (sz : α → Nat) (p : String) (σ : St α) :
    Except IOErr Nat × St α :=
  (if σ.ioFail.contains p then Except.error IOErr.ioerr
   else match lookupFile σ p with
     | some f => Except.ok (blobSize sz f.blob)
     | none => Except.error IOErr.notFound, touch σ)

/-- `open(p, "rb")` followed by reading the content (`pickle.load` decoding
is applied by the caller). -/
def openRead {α : Type} (p : String) (σ : St α) :
    Except IOErr (Blob α) × St α :=
  (if σ.ioFail.contains p then Except.error IOErr.ioerr
   else match lookupFile σ p with
     | some f => Except.ok f.blob
     | none => Except.error IOErr.notFound, touch σ)

/-- `open(p, "wb")` followed by `pickle.dump(b, f)`: on a `dumpFail` path the
file is created but left partially written (undecodable) and the call
raises. -/
def openWrite {α : Type} (p : String) (b : Blob α) (σ : St α) :
    Except IOErr Unit × St α :=
  if σ.ioFail.contains p then (Except.error IOErr.ioerr, touch σ)
  else if σ.dumpFail.contains p then
    (Except.error IOErr.ioerr,
      { touch σ with files := setFile σ.files p ⟨Blob.garbage 0, σ.now⟩ })
  else (Except.ok (), { touch σ with files := setFile σ.files p ⟨b, σ.now⟩ })

/-- `os.replace(src, dst)`: atomic rename; the destination keeps the moved
file's modification time. -/
def os_replace {α : Type} (src dst : String) (σ : St α) :
    Except IOErr Unit × St α :=
  if σ.ioFail.contains src || σ.ioFail.contains dst then
    (Except.error IOErr.ioerr, touch σ)
  else match lookupFile σ src with
    | none => (Except.error IOErr.notFound, touch σ)
    | some f =>
      (Except.ok (), { touch σ with files := setFile (eraseFile σ.files src) dst f })

/-- `os.remove`. -/
def os_remove {α : Type} (p : String) (σ : St α) : Except IOErr Unit × St α :=
  if σ.removeFail.contains p then (Except.error IOErr.ioerr, touch σ)
  else match lookupFile σ p with
    | none => (Except.error IOErr.notFound, touch σ)
    | some _ => (Except.ok (), { touch σ with files := eraseFile σ.files p })

/-- `os.listdir(self.cache_dir)`. -/
def os_listdir {α : Type} (σ : St α) : List String × St α :=
  (σ.files.map (fun e => e.1), touch σ)

/-- `with self._lock:`: run the body with the reentrant lock held one level
deeper. -/
def withLock {α β : Type} (body : St α → β × St α) (σ : St α) : β × St α :=
  let r := body { σ with lockDepth := σ.lockDepth + 1 }
  (r.1, { r.2 with lockDepth := r.2.lockDepth - 1 })

/-! ## The `CacheManager` operations -/

/-- The constructor parameters, fixed for the lifetime of the instance. -/
structure Config where
  cache_dir : String
  expiry_days : Int
  max_cache_size_mb : Int

/-- `CacheManager.get_cache_path`: `os.path.join(self.cache_dir, f"{key}.pkl")`
with the constant directory elided (paths are relative to it). -/
def get_cache_path (cache_key : String) : String := cache_key ++ ".pkl"

/-- `CacheManager.is_cache_valid`: `False` for a missing path; otherwise valid
iff `now < mtime + expiry_days` days; any error while checking gives
`False`. -/
def is_cache_valid {α : Type} (cfg : Config) (cache_path : String) (σ : St α) :
    Bool × St α :=
  let r := os_path_exists cache_path σ
  if !r.1 then (false, r.2)
  else match os_path_getmtime cache_path r.2 with
    | (Except.ok t, σ2) => (decide (σ2.now < t + cfg.expiry_days * 86400), σ2)
    | (Except.error _, σ2) => (false, σ2)

/-- The generic `except` branch of `load_from_cache`: try to remove the
corrupted file (swallowing any removal error) and return `None`. -/
def removeCorrupt {α : Type} (cache_path : String) (σ : St α) :
    Option α × St α :=
  let r := os_path_exists cache_path σ
  if r.1 then (none, (os_remove cache_path r.2).2) else (none, r.2)

/-- `CacheManager.load_from_cache`. -/
def load_from_cache {α : Type} (cfg : Config) (cache_key : String) (σ : St α) :
    Option α × St α :=
  withLock (fun σ =>
    let cache_path := get_cache_path cache_key
    let v := is_cache_valid cfg cache_path σ
    if !v.1 then (none, v.2)
    else match openRead cache_path v.2 with
      | (Except.ok (Blob.pickled p), σ2) => (some p, σ2)
      | (Except.ok (Blob.garbage _), σ2) => removeCorrupt cache_path σ2
      | (Except.error IOErr.notFound, σ2) => (none, σ2)
      | (Except.error IOErr.ioerr, σ2) => removeCorrupt cache_path σ2) σ

/-- The snapshot returned by `get_cache_stats` (the normal branch; the
missing-directory and error branches are unreachable in the embedding since
the directory exists and every step below is total). -/
structure CacheStats where
  total_files : Nat
  valid_files : Nat
  expired_files : Nat
  total_size : Nat
  total_size_mb : ℚ
  cache_dir : String
  expiry_days : Int
  max_size_mb : Int
deriving DecidableEq

/-- Python `round(x, 2)` (round half to even), on exact rationals. -/
def pyRound2 (q : ℚ) : ℚ :=
  let x := q * 100
  let n := ⌊x⌋
  let k := if x - n < 1/2 then n
    else if 1/2 < x - n then n + 1
    else if n % 2 = 0 then n else n + 1
  (k : ℚ) / 100

/-- The per-file loop of `get_cache_stats`: accumulate
`(total_size, valid_files, expired_files)`; a file whose `getsize` raises is
skipped (logged in the source) without aborting the scan. -/
def statsFold {α : Type} (sz : α → Nat) (cfg : Config) :
    List String → Nat × Nat × Nat → St α → (Nat × Nat × Nat) × St α
  | [], acc, σ => (acc, σ)
  | p :: rest, acc, σ =>
    match os_path_getsize sz p σ with
    | (Except.error _, σ1) => statsFold sz cfg rest acc σ1
    | (Except.ok s, σ1) =>
      let v := is_cache_valid cfg p σ1
      statsFold sz cfg rest
        (acc.1 + s,
         (if v.1 then acc.2.1 + 1 else acc.2.1),
         (if v.1 then acc.2.2 else acc.2.2 + 1)) v.2

/-- `CacheManager.get_cache_stats`. -/
def get_cache_stats {α : Type} (sz : α → Nat) (cfg : Config) (σ : St α) :
    CacheStats × St α :=
  let r := os_listdir σ
  let files := r.1.filter (fun f => pyEndsWith f ".pkl")
  let s := statsFold sz cfg files (0, 0, 0) r.2
  ({ total_files := files.length,
     valid_files := s.1.2.1,
     expired_files := s.1.2.2,
     total_size := s.1.1,
     total_size_mb := pyRound2 ((s.1.1 : ℚ) / (1024 * 1024)),
     cache_dir := cfg.cache_dir,
     expiry_days := cfg.expiry_days,
     max_size_mb := cfg.max_cache_size_mb }, s.2)

/-- The gather loop of `_cleanup_old_files`: collect `(path, mtime, size)` for
every `.pkl` file.  `getmtime`/`getsize` here are *not* individually guarded
in the source, so any error aborts the whole cleanup via its outer
`except`. -/
def gatherFiles {α : Type} (sz : α → Nat) :
    List String → St α → Except IOErr (List (String × Int × Nat)) × St α
  | [], σ => (Except.ok [], σ)
  | p :: rest, σ =>
    if pyEndsWith p ".pkl" then
      match os_path_getmtime p σ with
      | (Except.error e, σ1) => (Except.error e, σ1)
      | (Except.ok t, σ1) =>
        match os_path_getsize sz p σ1 with
        | (Except.error e, σ2) => (Except.error e, σ2)
        | (Except.ok s, σ2) =>
          match gatherFiles sz rest σ2 with
          | (Except.ok l, σ3) => (Except.ok ((p, t, s) :: l), σ3)
          | (Except.error e, σ3) => (Except.error e, σ3)
    else gatherFiles sz rest σ

/-- The removal loop of `_cleanup_old_files`: walk the (sorted) list, stop as
soon as `current_size <= target_size`, otherwise remove the file and subtract
its size; an individual removal failure is logged and skipped (the size is
then not subtracted). -/
def evictLoop {α : Type} (target : ℚ) :
    List (String × Int × Nat) → Nat → St α → Nat × St α
  | [], current, σ => (current, σ)
  | (p, _, s) :: rest, current, σ =>
    if (current : ℚ) ≤ target then (current, σ)
    else match os_remove p σ with
      | (Except.ok _, σ1) => evictLoop target rest (current - s) σ1
      | (Except.error _, σ1) => evictLoop target rest current σ1

/-- `CacheManager._cleanup_old_files`: sort all `.pkl` entries by modification
time (oldest first, Python's stable sort) and remove them in that order until
the running size is at most 80% of the limit. -/
def _cleanup_old_files {α : Type} (sz : α → Nat) (cfg : Config) (σ : St α) :
    St α :=
  let r := os_listdir σ
  match gatherFiles sz r.1 r.2 with
  | (Except.error _, σ2) => σ2
  | (Except.ok cache_files, σ2) =>
    let sorted := cache_files.mergeSort (fun a b => decide (a.2.1 ≤ b.2.1))
    let current := (cache_files.map (fun f => f.2.2)).sum
    let target : ℚ := (cfg.max_cache_size_mb : ℚ) * 1024 * 1024 * (8 / 10)
    (evictLoop target sorted current σ2).2

/-- `CacheManager._cleanup_if_needed`: run the eviction pass only when the
aggregate size reported by `get_cache_stats` exceeds the configured
maximum. -/
def _cleanup_if_needed {α : Type} (sz : α → Nat) (cfg : Config) (σ : St α) :
    St α :=
  let r := get_cache_stats sz cfg σ
  if (r.1.total_size : Int) > cfg.max_cache_size_mb * 1024 * 1024 then
    _cleanup_old_files sz cfg r.2
  else r.2

/-- The `except` branch of `save_to_cache`: remove the temporary file if it
exists (swallowing any removal error) and report failure. -/
def saveExceptBranch {α : Type} (temp_path : String) (σ : St α) :
    Bool × St α :=
  let r := os_path_exists temp_path σ
  if r.1 then (false, (os_remove temp_path r.2).2) else (false, r.2)

/-- `CacheManager.save_to_cache`: write to `cache_path + ".tmp"`, atomically
rename over `cache_path`, then run the size check.  `ensure_cache_dir` always
succeeds (see the header) and is elided. -/
def save_to_cache {α : Type} (sz : α → Nat) (cfg : Config) (cache_key : String)
    (data : α) (σ : St α) : Bool × St α :=
  withLock (fun σ =>
    let cache_path := get_cache_path cache_key
    let temp_path := cache_path ++ ".tmp"
    match openWrite temp_path (Blob.pickled data) σ with
    | (Except.error _, σ1) => saveExceptBranch temp_path σ1
    | (Except.ok _, σ1) =>
      match os_replace temp_path cache_path σ1 with
      | (Except.error _, σ2) => saveExceptBranch temp_path σ2
      | (Except.ok _, σ2) => (true, _cleanup_if_needed sz cfg σ2)) σ

/-- The removal loop of `clear_cache`: delete every `.pkl` file, skipping (and
logging) individual failures. -/
def clearLoop {α : Type} : List String → Nat → St α → Nat × St α
  | [], removed, σ => (removed, σ)
  | p :: rest, removed, σ =>
    if pyEndsWith p ".pkl" then
      match os_remove p σ with
      | (Except.ok _, σ1) => clearLoop rest (removed + 1) σ1
      | (Except.error _, σ1) => clearLoop rest removed σ1
    else clearLoop rest removed σ

/-- `CacheManager.clear_cache` (the missing-directory early return is
unreachable: the directory exists in the embedding). -/
def clear_cache {α : Type} (σ : St α) : Bool × St α :=
  withLock (fun σ =>
    let r := os_listdir σ
    (true, (clearLoop r.1 0 r.2).2)) σ

/-- The removal loop of `cleanup_expired`: delete every `.pkl` file the
Validity Checker rejects, counting successful removals. -/
def expiredLoop {α : Type} (cfg : Config) : List String → Nat → St α → Nat × St α
  | [], removed, σ => (removed, σ)
  | p :: rest, removed, σ =>
    if pyEndsWith p ".pkl" then
      let v := is_cache_valid cfg p σ
      if v.1 then expiredLoop cfg rest removed v.2
      else match os_remove p v.2 with
        | (Except.ok _, σ2) => expiredLoop cfg rest (removed + 1) σ2
        | (Except.error _, σ2) => expiredLoop cfg rest removed σ2
    else expiredLoop cfg rest removed σ

/-- `CacheManager.cleanup_expired`. -/
def cleanup_expired {α : Type} (cfg : Config) (σ : St α) : Nat × St α :=
  withLock (fun σ =>
    let r := os_listdir σ
    expiredLoop cfg r.1 0 r.2) σ

/-! ## Statement vocabulary

Helper functions used only to *state* the verified properties (they are not
part of the embedded program). -/

/-- A file name the cache treats as an entry (`file.endswith(".pkl")`). -/
def pklName (p : String) : Bool := pyEndsWith p ".pkl"

/-- A listed name whose `stat`-family calls succeed: not error-injected and
actually present. -/
def okName {α : Type} (files : List (String × FileData α)) (ioFail : List String)
    (p : String) : Bool :=
  !ioFail.contains p && (lookupL files p).isSome

/-- Byte size of the file stored under a name (0 if absent). -/
def sizeOfName {α : Type} (sz : α → Nat) (files : List (String × FileData α))
    (p : String) : Nat :=
  match lookupL files p with
  | some f => blobSize sz f.blob
  | none => 0

/-- Modification time of the file stored under a name (0 if absent). -/
def mtimeOfName {α : Type} (files : List (String × FileData α)) (p : String) : Int :=
  match lookupL files p with
  | some f => f.mtime
  | none => 0

/-- The TTL check of the Validity Checker on the file stored under a name:
`now < mtime + expiry_days` days. -/
def freshName {α : Type} (cfg : Config) (files : List (String × FileData α))
    (now : Int) (p : String) : Bool :=
  match lookupL files p with
  | some f => decide (now < f.mtime + cfg.expiry_days * 86400)
  | none => false

/-- Aggregate byte size of all `.pkl` entries. -/
def pklTotal {α : Type} (sz : α → Nat) (files : List (String × FileData α)) : Nat :=
  ((files.filter (fun e => pklName e.1)).map (fun e => blobSize sz e.2.blob)).sum

/-- The `(path, mtime, size)` triples of all `.pkl` entries, in directory
order. -/
def pklEntries {α : Type} (sz : α → Nat) (files : List (String × FileData α)) :
    List (String × Int × Nat) :=
  (files.filter (fun e => pklName e.1)).map
    (fun e => (e.1, e.2.mtime, blobSize sz e.2.blob))

/-- Erase the files named by a list of gathered triples, left to right. -/
def eraseAll {α : Type} (files : List (String × FileData α))
    (L : List (String × Int × Nat)) : List (String × FileData α) :=
  L.foldl (fun fs e => eraseFile fs e.1) files

/-! ## Concrete fixtures for witnesses and counterexamples -/

/-- Identity byte-size function on `Nat` payloads. -/
def szW : Nat → Nat := fun n => n

/-- A concrete configuration: 30-day expiry, 100 MB limit. -/
def cfgW : Config := ⟨"cache", 30, 100⟩

/-- A concrete configuration with a zero size limit (every save triggers
eviction). -/
def cfgW0 : Config := ⟨"cache", 30, 0⟩

/-- A state with one fresh, readable entry. -/
def σW : St Nat := ⟨[("k.pkl", ⟨Blob.pickled 7, 100⟩)], [], [], [], 200, 0, 0⟩

/-- A state whose single entry has just expired (`now = mtime + window`). -/
def σWexp : St Nat := ⟨[("k.pkl", ⟨Blob.pickled 7, 100⟩)], [], [], [], 100 + 30 * 86400, 0, 0⟩

/-- A state whose single entry is fresh but undecodable. -/
def σWgarb : St Nat := ⟨[("k.pkl", ⟨Blob.garbage 4, 100⟩)], [], [], [], 200, 0, 0⟩

/-- An empty cache directory. -/
def σWempty : St Nat := ⟨[], [], [], [], 0, 0, 0⟩

/-- A state where writing `k.pkl.tmp` fails inside `pickle.dump`. -/
def σWdump : St Nat := ⟨[("k.pkl", ⟨Blob.pickled 9, 50⟩)], [], ["k.pkl.tmp"], [], 200, 0, 0⟩

/-- A state with two entries, used for the eviction witness. -/
def σWbig : St Nat := ⟨[("a.pkl", ⟨Blob.pickled 3, 1⟩), ("b.pkl", ⟨Blob.pickled 5, 2⟩)], [], [], [], 10, 0, 0⟩

/-! ## Basic state lemmas -/

@[simp]
theorem touch_files {α : Type} (σ : St α) : (touch σ).files = σ.files := by
  unfold touch; split <;> rfl

@[simp]
theorem touch_ioFail {α : Type} (σ : St α) : (touch σ).ioFail = σ.ioFail := by
  unfold touch; split <;> rfl

@[simp]
theorem touch_dumpFail {α : Type} (σ : St α) : (touch σ).dumpFail = σ.dumpFail := by
  unfold touch; split <;> rfl

@[simp]
theorem touch_removeFail {α : Type} (σ : St α) : (touch σ).removeFail = σ.removeFail := by
  unfold touch; split <;> rfl

@[simp]
theorem touch_now {α : Type} (σ : St α) : (touch σ).now = σ.now := by
  unfold touch; split <;> rfl

@[simp]
theorem touch_lockDepth {α : Type} (σ : St α) : (touch σ).lockDepth = σ.lockDepth := by
  unfold touch; split <;> rfl

theorem touch_locked {α : Type} (σ : St α) (h : 0 < σ.lockDepth) : touch σ = σ := by
  unfold touch; rw [if_neg (by omega)]

@[simp]
theorem lookupFile_eq {α : Type} (σ : St α) (p : String) :
    lookupFile σ p = lookupL σ.files p := rfl

@[simp]
theorem os_path_exists_snd {α : Type} (p : String) (σ : St α) :
    (os_path_exists p σ).2 = touch σ := rfl

@[simp]
theorem os_path_getmtime_snd {α : Type} (p : String) (σ : St α) :
    (os_path_getmtime p σ).2 = touch σ := rfl

@[simp]
theorem os_path_getsize_snd {α : Type} (sz : α → Nat) (p : String) (σ : St α) :
    (os_path_getsize sz p σ).2 = touch σ := rfl

@[simp]
theorem openRead_snd {α : Type} (p : String) (σ : St α) :
    (openRead p σ).2 = touch σ := rfl

@[simp]
theorem os_listdir_snd {α : Type} (σ : St α) : (os_listdir σ).2 = touch σ := rfl

@[simp]
theorem os_listdir_fst {α : Type} (σ : St α) :
    (os_listdir σ).1 = σ.files.map (fun e => e.1) := rfl

/-- The Validity Checker's verdict: the path is readable and its entry passes
the TTL check. -/
theorem is_cache_valid_fst {α : Type} (cfg : Config) (p : String) (σ : St α) :
    (is_cache_valid cfg p σ).1 =
      (!σ.ioFail.contains p && freshName cfg σ.files σ.now p) := by
  by_cases hio : p ∈ σ.ioFail
  · simp [is_cache_valid, os_path_exists, os_path_getmtime, freshName, hio]
  · cases hl : lookupL σ.files p with
    | none =>
      simp [is_cache_valid, os_path_exists, os_path_getmtime, lookupFile,
        freshName, hio, hl]
    | some f =>
      simp [is_cache_valid, os_path_exists, os_path_getmtime, lookupFile,
        freshName, hio, hl]

/-- The Validity Checker only reads the directory. -/
theorem is_cache_valid_snd_files {α : Type} (cfg : Config) (p : String) (σ : St α) :
    ((is_cache_valid cfg p σ).2).files = σ.files := by
  unfold is_cache_valid
  by_cases hio : p ∈ σ.ioFail
  · simp [os_path_exists, hio]
  · cases hl : lookupL σ.files p with
    | none => simp [os_path_exists, os_path_getmtime, lookupFile, hio, hl]
    | some f => simp [os_path_exists, os_path_getmtime, lookupFile, hio, hl]

theorem is_cache_valid_snd_eq {α : Type} (cfg : Config) (p : String) (σ : St α) :
    (is_cache_valid cfg p σ).2 = touch (touch σ) ∨
      (is_cache_valid cfg p σ).2 = touch σ := by
  unfold is_cache_valid
  by_cases hio : p ∈ σ.ioFail
  · right; simp [os_path_exists, hio]
  · cases hl : lookupL σ.files p with
    | none => right; simp [os_path_exists, os_path_getmtime, lookupFile, hio, hl]
    | some f => left; simp [os_path_exists, os_path_getmtime, lookupFile, hio, hl]

@[simp]
theorem is_cache_valid_snd_ioFail {α : Type} (cfg : Config) (p : String) (σ : St α) :
    ((is_cache_valid cfg p σ).2).ioFail = σ.ioFail := by
  rcases is_cache_valid_snd_eq cfg p σ with h | h <;> rw [h] <;> simp

@[simp]
theorem is_cache_valid_snd_dumpFail {α : Type} (cfg : Config) (p : String) (σ : St α) :
    ((is_cache_valid cfg p σ).2).dumpFail = σ.dumpFail := by
  rcases is_cache_valid_snd_eq cfg p σ with h | h <;> rw [h] <;> simp

@[simp]
theorem is_cache_valid_snd_removeFail {α : Type} (cfg : Config) (p : String) (σ : St α) :
    ((is_cache_valid cfg p σ).2).removeFail = σ.removeFail := by
  rcases is_cache_valid_snd_eq cfg p σ with h | h <;> rw [h] <;> simp

@[simp]
theorem is_cache_valid_snd_now {α : Type} (cfg : Config) (p : String) (σ : St α) :
    ((is_cache_valid cfg p σ).2).now = σ.now := by
  rcases is_cache_valid_snd_eq cfg p σ with h | h <;> rw [h] <;> simp

@[simp]
theorem is_cache_valid_snd_lockDepth {α : Type} (cfg : Config) (p : String) (σ : St α) :
    ((is_cache_valid cfg p σ).2).lockDepth = σ.lockDepth := by
  rcases is_cache_valid_snd_eq cfg p σ with h | h <;> rw [h] <;> simp

@[simp]
theorem is_cache_valid_snd_files' {α : Type} (cfg : Config) (p : String) (σ : St α) :
    ((is_cache_valid cfg p σ).2).files = σ.files := is_cache_valid_snd_files cfg p σ

/-! ## Directory-listing lemmas -/

theorem lookupL_erase_self {α : Type} (files : List (String × FileData α)) (p : String) :
    lookupL (eraseFile files p) p = none := by
  induction files with
  | nil => rfl
  | cons e t ih =>
    by_cases he : e.1 == p
    · simp [eraseFile, lookupL, he]
    · simp [eraseFile, lookupL, he]

theorem lookupL_erase_ne {α : Type} (files : List (String × FileData α))
    (p q : String) (h : q ≠ p) :
    lookupL (eraseFile files p) q = lookupL files q := by
  induction files with
  | nil => rfl
  | cons e t ih =>
    by_cases he : e.1 == p
    · have : ¬(e.1 == q) := by
        intro hq
        exact h ((eq_of_beq hq).symm.trans (eq_of_beq he))
      simpa [eraseFile, lookupL, he, this] using ih
    · by_cases hq : e.1 == q
      · simp [eraseFile, lookupL, he, hq]
      · simpa [eraseFile, lookupL, he, hq] using ih

theorem eraseFile_absent {α : Type} (files : List (String × FileData α)) (p : String)
    (h : lookupL files p = none) : eraseFile files p = files := by
  induction files with
  | nil => rfl
  | cons e t ih =>
    by_cases he : e.1 == p
    · simp [lookupL, he] at h
    · have ht : lookupL t p = none := by
        simpa [lookupL, he] using h
      simp [eraseFile, he] at ih ⊢
      exact ih ht

theorem lookupL_setFile_self {α : Type} (files : List (String × FileData α))
    (p : String) (f : FileData α) :
    lookupL (setFile files p f) p = some f := by
  induction files with
  | nil => simp [setFile, lookupL]
  | cons e t ih =>
    by_cases he : e.1 == p
    · simp [setFile, lookupL, he]
    · simpa [setFile, lookupL, he] using ih

theorem lookupL_setFile_ne {α : Type} (files : List (String × FileData α))
    (p q : String) (f : FileData α) (h : q ≠ p) :
    lookupL (setFile files p f) q = lookupL files q := by
  have hpq : ¬(p == q) = true := by
    intro hpq; exact h (eq_of_beq hpq).symm
  induction files with
  | nil => simp [setFile, lookupL, hpq]
  | cons e t ih =>
    by_cases he : e.1 == p
    · have hq : ¬(e.1 == q) = true := by
        intro hq; exact h ((eq_of_beq hq).symm.trans (eq_of_beq he))
      simp [setFile, lookupL, he, hq, hpq]
    · by_cases hq : e.1 == q
      · simp [setFile, lookupL, he, hq]
      · simpa [setFile, lookupL, he, hq] using ih

theorem eraseFile_setFile {α : Type} (files : List (String × FileData α))
    (p : String) (f : FileData α) :
    eraseFile (setFile files p f) p = eraseFile files p := by
  induction files with
  | nil => simp [setFile, eraseFile]
  | cons e t ih =>
    by_cases he : e.1 == p
    · simp [setFile, eraseFile, he]
    · simpa [setFile, eraseFile, he] using ih

theorem setFile_keys_of_present {α : Type} (files : List (String × FileData α))
    (p : String) (f : FileData α) (h : (lookupL files p).isSome) :
    (setFile files p f).map (fun e => e.1) = files.map (fun e => e.1) := by
  induction files with
  | nil => simp [lookupL] at h
  | cons e t ih =>
    by_cases he : e.1 == p
    · simp [setFile, he, eq_of_beq he]
    · have ht : (lookupL t p).isSome := by
        simpa [lookupL, he] using h
      simpa [setFile, he] using ih ht

theorem setFile_keys_of_absent {α : Type} (files : List (String × FileData α))
    (p : String) (f : FileData α) (h : lookupL files p = none) :
    (setFile files p f).map (fun e => e.1) = files.map (fun e => e.1) ++ [p] := by
  induction files with
  | nil => simp [setFile]
  | cons e t ih =>
    by_cases he : e.1 == p
    · simp [lookupL, he] at h
    · have ht : lookupL t p = none := by
        simpa [lookupL, he] using h
      simpa [setFile, he] using ih ht

theorem setFile_keys_nodup {α : Type} (files : List (String × FileData α))
    (p : String) (f : FileData α) (h : (files.map (fun e => e.1)).Nodup) :
    ((setFile files p f).map (fun e => e.1)).Nodup := by
  cases hl : lookupL files p with
  | some g =>
    rw [setFile_keys_of_present files p f (by simp [hl])]
    exact h
  | none =>
    rw [setFile_keys_of_absent files p f hl]
    have hp : p ∉ files.map (fun e => e.1) := by
      intro hmem
      rcases List.mem_map.mp hmem with ⟨e, hmem, hkey⟩
      have : lookupL files p ≠ none := by
        unfold lookupL
        have : files.find? (fun e => e.1 == p) ≠ none := by
          rw [ne_eq, List.find?_eq_none]
          push_neg
          exact ⟨e, hmem, by simp [hkey]⟩
        cases hf : files.find? (fun e => e.1 == p) with
        | none => exact absurd hf this
        | some g => simp
      exact this hl
    simp [List.nodup_append, h, hp]

theorem eraseFile_keys_sublist {α : Type} (files : List (String × FileData α))
    (p : String) :
    ((eraseFile files p).map (fun e => e.1)).Sublist (files.map (fun e => e.1)) :=
  (List.filter_sublist files).map (fun e => e.1)

theorem eraseFile_keys_nodup {α : Type} (files : List (String × FileData α))
    (p : String) (h : (files.map (fun e => e.1)).Nodup) :
    ((eraseFile files p).map (fun e => e.1)).Nodup :=
  (eraseFile_keys_sublist files p).nodup h

theorem lookupL_mem {α : Type} (files : List (String × FileData α))
    (e : String × FileData α) (hmem : e ∈ files)
    (h : (files.map (fun e => e.1)).Nodup) :
    lookupL files e.1 = some e.2 := by
  induction files with
  | nil => simp at hmem
  | cons a t ih =>
    rcases List.mem_cons.mp hmem with rfl | hmem'
    · simp [lookupL]
    · have hnd : (a.1 :: t.map (fun e => e.1)).Nodup := by simpa using h
      have ha : ¬(a.1 == e.1) = true := by
        intro hb
        have hmm : a.1 ∈ t.map (fun e => e.1) :=
          List.mem_map.mpr ⟨e, hmem', (eq_of_beq hb).symm⟩
        exact (List.nodup_cons.mp hnd).1 hmm
      have ht : (t.map (fun e => e.1)).Nodup := (List.nodup_cons.mp hnd).2
      simpa [lookupL, ha] using ih hmem' ht

theorem lookupL_isSome_of_mem_keys {α : Type} (files : List (String × FileData α))
    (p : String) (h : p ∈ files.map (fun e => e.1)) :
    (lookupL files p).isSome := by
  induction files with
  | nil => simp at h
  | cons a t ih =>
    by_cases ha : a.1 == p
    · simp [lookupL, ha]
    · have : p ∈ t.map (fun e => e.1) := by
        rcases List.mem_map.mp h with ⟨e, hmem, hkey⟩
        rcases List.mem_cons.mp hmem with rfl | hmem'
        · exact absurd (by simp [hkey]) ha
        · exact List.mem_map.mpr ⟨e, hmem', hkey⟩
      simpa [lookupL, ha] using ih this

/-! ## Claims -/

/-- C4: `is_cache_valid` returns `false` when the location does not exist;
otherwise it returns `true` iff `now < last_modified + expiry_window`
(`expiry_days` days); and an I/O error during the check (an error-injected
path, even one that exists) yields `false`. -/
theorem claim_C4_validity {α : Type} (cfg : Config) (p : String) (σ : St α) :
    (lookupL σ.files p = none → (is_cache_valid cfg p σ).1 = false) ∧
    (p ∈ σ.ioFail → (is_cache_valid cfg p σ).1 = false) ∧
    (∀ f, lookupL σ.files p = some f → p ∉ σ.ioFail →
      ((is_cache_valid cfg p σ).1 = true ↔
        σ.now < f.mtime + cfg.expiry_days * 86400)) := by
  refine ⟨?_, ?_, ?_⟩
  · intro h
    rw [is_cache_valid_fst]
    simp [freshName, h]
  · intro h
    rw [is_cache_valid_fst]
    simp [h]
  · intro f hf hio
    rw [is_cache_valid_fst]
    simp [freshName, hf, hio]

/-- Witness for C4 at a concrete fresh entry. -/
theorem claim_C4_validity_witness :
    (is_cache_valid cfgW "k.pkl" σW).1 = true :=
  ((claim_C4_validity cfgW "k.pkl" σW).2.2 ⟨Blob.pickled 7, 100⟩ rfl
    (by decide)).mpr (by decide)

/-- C9: an entry whose file exists but is older than `now` minus the expiry
window is reported as a miss by `load_from_cache`, and the entry file is left
on disk untouched. -/
theorem claim_C9_expired_miss {α : Type} (cfg : Config) (key : String)
    (σ : St α) (f : FileData α)
    (hf : lookupL σ.files (get_cache_path key) = some f)
    (hexp : f.mtime + cfg.expiry_days * 86400 ≤ σ.now) :
    (load_from_cache cfg key σ).1 = none ∧
    ((load_from_cache cfg key σ).2).files = σ.files := by
  have hv : (is_cache_valid cfg (get_cache_path key)
      { σ with lockDepth := σ.lockDepth + 1 }).1 = false := by
    rw [is_cache_valid_fst]
    simp only [freshName]
    have : lookupL ({ σ with lockDepth := σ.lockDepth + 1 } : St α).files
        (get_cache_path key) = some f := hf
    rw [this]
    simp
    omega
  constructor
  · simp [load_from_cache, withLock, hv]
  · simp [load_from_cache, withLock, hv, is_cache_valid_snd_files']

/-- Witness for C9: an expired entry is a miss and its file survives. -/
theorem claim_C9_expired_miss_witness :
    (load_from_cache cfgW "k" σWexp).1 = none ∧
    ((load_from_cache cfgW "k" σWexp).2).files = σWexp.files :=
  claim_C9_expired_miss cfgW "k" σWexp ⟨Blob.pickled 7, 100⟩ rfl (by decide)

/-- C3: a fresh entry whose content fails to deserialize is removed by
`load_from_cache`, which reports a plain miss (`none`) instead of an
error. -/
theorem claim_C3_corruption_heals {α : Type} (cfg : Config) (key : String)
    (σ : St α) (n : Nat) (mt : Int)
    (hf : lookupL σ.files (get_cache_path key) = some ⟨Blob.garbage n, mt⟩)
    (hfresh : σ.now < mt + cfg.expiry_days * 86400)
    (hio : get_cache_path key ∉ σ.ioFail)
    (hrm : get_cache_path key ∉ σ.removeFail) :
    (load_from_cache cfg key σ).1 = none ∧
    ((load_from_cache cfg key σ).2).files = eraseFile σ.files (get_cache_path key) ∧
    lookupL ((load_from_cache cfg key σ).2).files (get_cache_path key) = none := by
  set p := get_cache_path key with hp
  set σ1 : St α := { σ with lockDepth := σ.lockDepth + 1 } with hσ1
  have hσ1files : σ1.files = σ.files := rfl
  have hv : (is_cache_valid cfg p σ1).1 = true := by
    rw [is_cache_valid_fst]
    simp only [freshName, hσ1files, hf]
    simp [hio]
    exact hfresh
  have hv2files : ((is_cache_valid cfg p σ1).2).files = σ.files :=
    is_cache_valid_snd_files' cfg p σ1
  have hv2io : ((is_cache_valid cfg p σ1).2).ioFail = σ.ioFail :=
    is_cache_valid_snd_ioFail cfg p σ1
  have hv2rm : ((is_cache_valid cfg p σ1).2).removeFail = σ.removeFail :=
    is_cache_valid_snd_removeFail cfg p σ1
  have hread : openRead p (is_cache_valid cfg p σ1).2 =
      (Except.ok (Blob.garbage n), touch (is_cache_valid cfg p σ1).2) := by
    unfold openRead
    rw [hv2io, if_neg (by simpa using hio)]
    simp [hv2files, hf]
  have hfinal : removeCorrupt p (touch (is_cache_valid cfg p σ1).2) =
      ((none : Option α),
        (os_remove p (touch (touch (is_cache_valid cfg p σ1).2))).2) := by
    have hex : (os_path_exists p (touch (is_cache_valid cfg p σ1).2)).1 = true := by
      unfold os_path_exists
      rw [touch_ioFail, hv2io, if_neg (by simpa using hio)]
      simp [hv2files, hf]
    simp [removeCorrupt, hex]
  have hrmres : (os_remove p (touch (touch (is_cache_valid cfg p σ1).2))).2.files =
      eraseFile σ.files p := by
    unfold os_remove
    rw [touch_removeFail, touch_removeFail, hv2rm, if_neg (by simpa using hrm)]
    have : lookupFile (touch (touch (is_cache_valid cfg p σ1).2)) p =
        some ⟨Blob.garbage n, mt⟩ := by
      simp [hv2files, hf]
    rw [this]
    simp [hv2files]
  refine ⟨?_, ?_, ?_⟩
  · simp [load_from_cache, withLock, hv, hread, hfinal]
  · simp [load_from_cache, withLock, hv, hread, hfinal, hrmres]
  · simp [load_from_cache, withLock, hv, hread, hfinal, hrmres, lookupL_erase_self]

/-- Witness for C3: the concrete garbage entry heals to a miss. -/
theorem claim_C3_corruption_heals_witness :
    (load_from_cache cfgW "k" σWgarb).1 = none ∧
    ((load_from_cache cfgW "k" σWgarb).2).files = eraseFile σWgarb.files "k.pkl" ∧
    lookupL ((load_from_cache cfgW "k" σWgarb).2).files "k.pkl" = none :=
  claim_C3_corruption_heals cfgW "k" σWgarb 4 100 rfl (by decide) (by decide)
    (by decide)

/-! ## Key derivation: normalization lemmas -/

theorem charOfNat_toNat (n : Nat) (h : n < 55296) : (Char.ofNat n).toNat = n := by
  unfold Char.ofNat
  split
  · rfl
  · exact absurd (Or.inl h) (by assumption)

theorem pyLowerChar_toNat_of_upper (c : Char)
    (h : 65 ≤ c.toNat ∧ c.toNat ≤ 90) : (pyLowerChar c).toNat = c.toNat + 32 := by
  unfold pyLowerChar
  rw [if_pos h]
  exact charOfNat_toNat _ (by omega)

theorem pyLowerChar_of_not_upper (c : Char)
    (h : ¬(65 ≤ c.toNat ∧ c.toNat ≤ 90)) : pyLowerChar c = c := by
  unfold pyLowerChar
  rw [if_neg h]

theorem pyIsSpace_lower (c : Char) : pyIsSpace (pyLowerChar c) = pyIsSpace c := by
  by_cases h : 65 ≤ c.toNat ∧ c.toNat ≤ 90
  · have ht : (pyLowerChar c).toNat = c.toNat + 32 := pyLowerChar_toNat_of_upper c h
    have h1 : pyIsSpace (pyLowerChar c) = false := by
      simp [pyIsSpace, ht]; omega
    have h2 : pyIsSpace c = false := by
      simp [pyIsSpace]; omega
    rw [h1, h2]
  · rw [pyLowerChar_of_not_upper c h]

theorem pyLowerChar_idem (c : Char) : pyLowerChar (pyLowerChar c) = pyLowerChar c := by
  by_cases h : 65 ≤ c.toNat ∧ c.toNat ≤ 90
  · have ht : (pyLowerChar c).toNat = c.toNat + 32 := pyLowerChar_toNat_of_upper c h
    apply pyLowerChar_of_not_upper
    omega
  · rw [pyLowerChar_of_not_upper c h, pyLowerChar_of_not_upper c h]

theorem stripChars_eq (l : List Char) :
    stripChars l = List.rdropWhile pyIsSpace (l.dropWhile pyIsSpace) := by
  simp [stripChars, List.rdropWhile]

theorem stripChars_idem (l : List Char) :
    stripChars (stripChars l) = stripChars l := by
  rw [stripChars_eq, stripChars_eq]
  have h1 : List.dropWhile pyIsSpace
      (List.rdropWhile pyIsSpace (l.dropWhile pyIsSpace)) =
      List.rdropWhile pyIsSpace (l.dropWhile pyIsSpace) := by
    cases hs' : List.rdropWhile pyIsSpace (l.dropWhile pyIsSpace) with
    | nil => simp
    | cons a t' =>
      obtain ⟨t, ht⟩ := List.rdropWhile_prefix pyIsSpace (l.dropWhile pyIsSpace)
      rw [hs'] at ht
      have hne : l.dropWhile pyIsSpace ≠ [] := by
        rw [← ht]; simp
      have hcons : a :: (t' ++ t) = l.dropWhile pyIsSpace := by
        rw [← ht]; simp
      have h0 : (l.dropWhile pyIsSpace).head? = some a := by
        rw [← hcons]; rfl
      have hh := List.head_dropWhile_not pyIsSpace l hne
      have he : (l.dropWhile pyIsSpace).head? =
          some ((l.dropWhile pyIsSpace).head hne) := List.head?_eq_head hne
      rw [h0] at he
      have ha : a = (l.dropWhile pyIsSpace).head hne := by
        injection he
      rw [← ha] at hh
      simp [List.dropWhile_cons, hh]
  rw [h1, List.rdropWhile_idempotent]

theorem rdropWhile_map_lower (l : List Char) :
    List.rdropWhile pyIsSpace (l.map pyLowerChar) =
      (List.rdropWhile pyIsSpace l).map pyLowerChar := by
  have hpf : (pyIsSpace ∘ pyLowerChar) = pyIsSpace := funext pyIsSpace_lower
  unfold List.rdropWhile
  rw [← List.map_reverse, List.dropWhile_map, hpf, List.map_reverse]

theorem stripChars_map_lower (l : List Char) :
    stripChars (l.map pyLowerChar) = (stripChars l).map pyLowerChar := by
  have hpf : (pyIsSpace ∘ pyLowerChar) = pyIsSpace := funext pyIsSpace_lower
  rw [stripChars_eq, stripChars_eq, List.dropWhile_map, hpf, rdropWhile_map_lower]

theorem pyLower_strip_idem (s : String) :
    pyLower (pyStrip (pyLower (pyStrip s))) = pyLower (pyStrip s) := by
  show (⟨((stripChars ((stripChars s.data).map pyLowerChar)).map pyLowerChar)⟩ : String) = _
  have hll : pyLowerChar ∘ pyLowerChar = pyLowerChar := funext pyLowerChar_idem
  rw [stripChars_map_lower, stripChars_idem, List.map_map, hll]
  rfl

theorem pyNormField_idem (x : Option String) :
    pyNormField (some (pyNormField x)) = pyNormField x := by
  cases x with
  | none => rfl
  | some s =>
    by_cases hs : s = ""
    · simp [pyNormField, hs]
    · by_cases hy : pyLower (pyStrip s) = ""
      · simp [pyNormField, hs, hy]
      · have e1 : pyNormField (some s) = pyLower (pyStrip s) := by
          simp [pyNormField, hs]
        have e2 : pyNormField (some (pyLower (pyStrip s))) =
            pyLower (pyStrip (pyLower (pyStrip s))) := by
          simp [pyNormField, hy]
        rw [e1, e2]
        exact pyLower_strip_idem s

/-- C6: key derivation is insensitive to surrounding whitespace and letter
case, and absent (`None` or empty) fields normalize to the empty string:
every key equals the key of the trimmed, lowercased fields, and in particular
`get_cache_key "Acme" " x1 " "A/B" = get_cache_key "acme" "x1" "a/b"`. -/
theorem claim_C6_key_normalization :
    (∀ brand model options : Option String,
      get_cache_key brand model options =
        get_cache_key (some (pyNormField brand)) (some (pyNormField model))
          (some (pyNormField options))) ∧
    get_cache_key (some "Acme") (some " x1 ") (some "A/B") =
      get_cache_key (some "acme") (some "x1") (some "a/b") := by
  constructor
  · intro brand model options
    unfold get_cache_key cache_string
    rw [pyNormField_idem, pyNormField_idem, pyNormField_idem]
  · unfold get_cache_key
    exact congrArg md5_hexdigest (by decide)

/-- C10: key derivation is not injective on distinct normalized inputs: the
`"|"` join delimiter may occur inside a field, so `("a|b", "c", "")` and
`("a", "b|c", "")` normalize differently yet share one cache key. -/
theorem claim_C10_key_collision :
    get_cache_key (some "a|b") (some "c") (some "") =
      get_cache_key (some "a") (some "b|c") (some "") ∧
    (pyNormField (some "a|b"), pyNormField (some "c"), pyNormField (some "")) ≠
      (pyNormField (some "a"), pyNormField (some "b|c"), pyNormField (some "")) := by
  constructor
  · unfold get_cache_key
    exact congrArg md5_hexdigest (by decide)
  · decide

/-- C5: a failing `save_to_cache` returns `False` (failure is a value, not an
exception), removes the temporary file it created, and leaves the previously
stored entry for the key unchanged. -/
theorem claim_C5_save_failure {α : Type} (sz : α → Nat) (cfg : Config)
    (key : String) (data : α) (σ : St α)
    (htmp : lookupL σ.files (get_cache_path key ++ ".tmp") = none)
    (hrm : get_cache_path key ++ ".tmp" ∉ σ.removeFail)
    (hfail : (save_to_cache sz cfg key data σ).1 = false) :
    lookupL ((save_to_cache sz cfg key data σ).2).files (get_cache_path key) =
      lookupL σ.files (get_cache_path key) ∧
    lookupL ((save_to_cache sz cfg key data σ).2).files
      (get_cache_path key ++ ".tmp") = none := by
  have herase : eraseFile σ.files (get_cache_path key ++ ".tmp") = σ.files :=
    eraseFile_absent _ _ htmp
  by_cases hio : get_cache_path key ++ ".tmp" ∈ σ.ioFail
  · constructor <;>
      simp [save_to_cache, withLock, openWrite, saveExceptBranch,
        os_path_exists, hio, htmp]
  · by_cases hdump : get_cache_path key ++ ".tmp" ∈ σ.dumpFail
    · have hset : lookupL
          (setFile σ.files (get_cache_path key ++ ".tmp") ⟨Blob.garbage 0, σ.now⟩)
          (get_cache_path key ++ ".tmp") = some ⟨Blob.garbage 0, σ.now⟩ :=
        lookupL_setFile_self _ _ _
      have hef : eraseFile
          (setFile σ.files (get_cache_path key ++ ".tmp") ⟨Blob.garbage 0, σ.now⟩)
          (get_cache_path key ++ ".tmp") = σ.files := by
        rw [eraseFile_setFile, herase]
      constructor <;>
        simp [save_to_cache, withLock, openWrite, saveExceptBranch,
          os_path_exists, os_remove, hio, hdump, hrm, hset, hef, htmp]
    · by_cases hiop : get_cache_path key ∈ σ.ioFail
      · have hset : lookupL
            (setFile σ.files (get_cache_path key ++ ".tmp")
              ⟨Blob.pickled data, σ.now⟩)
            (get_cache_path key ++ ".tmp") = some ⟨Blob.pickled data, σ.now⟩ :=
          lookupL_setFile_self _ _ _
        have hef : eraseFile
            (setFile σ.files (get_cache_path key ++ ".tmp")
              ⟨Blob.pickled data, σ.now⟩)
            (get_cache_path key ++ ".tmp") = σ.files := by
          rw [eraseFile_setFile, herase]
        constructor <;>
          simp [save_to_cache, withLock, openWrite, os_replace, saveExceptBranch,
            os_path_exists, os_remove, hio, hdump, hiop, hrm, hset, hef, htmp]
      · exfalso
        have hset : lookupL
            (setFile σ.files (get_cache_path key ++ ".tmp")
              ⟨Blob.pickled data, σ.now⟩)
            (get_cache_path key ++ ".tmp") = some ⟨Blob.pickled data, σ.now⟩ :=
          lookupL_setFile_self _ _ _
        have hT : (save_to_cache sz cfg key data σ).1 = true := by
          simp [save_to_cache, withLock, openWrite, os_replace,
            hio, hdump, hiop, hset]
        rw [hT] at hfail
        exact Bool.noConfusion hfail

/-- Witness for C5: a `pickle.dump` failure on the temporary file reports
failure and leaves the old entry intact. -/
theorem claim_C5_save_failure_witness :
    lookupL ((save_to_cache szW cfgW "k" 7 σWdump).2).files "k.pkl" =
      lookupL σWdump.files "k.pkl" ∧
    lookupL ((save_to_cache szW cfgW "k" 7 σWdump).2).files "k.pkl.tmp" = none :=
  claim_C5_save_failure szW cfgW "k" 7 σWdump rfl (by decide) (by decide)

/-- Full characterization of the per-file statistics loop: unreadable files
are skipped from all three accumulators, readable ones are sized and
classified by the Validity Checker, and the state keeps its directory
contents. -/
theorem statsFold_spec {α : Type} (sz : α → Nat) (cfg : Config)
    (names : List String) (acc : Nat × Nat × Nat) (σ : St α) :
    (statsFold sz cfg names acc σ).1 =
      (acc.1 + ((names.filter (fun p => okName σ.files σ.ioFail p)).map
          (fun p => sizeOfName sz σ.files p)).sum,
       acc.2.1 + names.countP (fun p => okName σ.files σ.ioFail p &&
          freshName cfg σ.files σ.now p),
       acc.2.2 + names.countP (fun p => okName σ.files σ.ioFail p &&
          !freshName cfg σ.files σ.now p)) ∧
    ((statsFold sz cfg names acc σ).2).files = σ.files ∧
    ((statsFold sz cfg names acc σ).2).ioFail = σ.ioFail ∧
    ((statsFold sz cfg names acc σ).2).dumpFail = σ.dumpFail ∧
    ((statsFold sz cfg names acc σ).2).removeFail = σ.removeFail ∧
    ((statsFold sz cfg names acc σ).2).now = σ.now ∧
    ((statsFold sz cfg names acc σ).2).lockDepth = σ.lockDepth := by
  induction names generalizing acc σ with
  | nil => simp [statsFold]
  | cons p rest ih =>
    by_cases hio : p ∈ σ.ioFail
    · have hstep : statsFold sz cfg (p :: rest) acc σ =
          statsFold sz cfg rest acc (touch σ) := by
        simp [statsFold, os_path_getsize, hio]
      rw [hstep]
      have := ih acc (touch σ)
      simp only [touch_files, touch_ioFail, touch_dumpFail, touch_removeFail,
        touch_now, touch_lockDepth] at this
      refine ⟨?_, this.2⟩
      rw [this.1]
      have hok : okName σ.files σ.ioFail p = false := by
        simp [okName, hio]
      simp [hok]
    · cases hl : lookupL σ.files p with
      | none =>
        have hstep : statsFold sz cfg (p :: rest) acc σ =
            statsFold sz cfg rest acc (touch σ) := by
          simp [statsFold, os_path_getsize, lookupFile, hio, hl]
        rw [hstep]
        have := ih acc (touch σ)
        simp only [touch_files, touch_ioFail, touch_dumpFail, touch_removeFail,
          touch_now, touch_lockDepth] at this
        refine ⟨?_, this.2⟩
        rw [this.1]
        have hok : okName σ.files σ.ioFail p = false := by
          simp [okName, hio, hl]
        simp [hok]
      | some f =>
        have hok : okName σ.files σ.ioFail p = true := by
          simp [okName, hio, hl]
        have hsize : sizeOfName sz σ.files p = blobSize sz f.blob := by
          simp [sizeOfName, hl]
        have hfst : (is_cache_valid cfg p (touch σ)).1 =
            freshName cfg σ.files σ.now p := by
          rw [is_cache_valid_fst]
          simp [hio]
        have hstep : statsFold sz cfg (p :: rest) acc σ =
            statsFold sz cfg rest
              (acc.1 + blobSize sz f.blob,
               (if freshName cfg σ.files σ.now p then acc.2.1 + 1 else acc.2.1),
               (if freshName cfg σ.files σ.now p then acc.2.2 else acc.2.2 + 1))
              (is_cache_valid cfg p (touch σ)).2 := by
          simp [statsFold, os_path_getsize, lookupFile, hio, hl, hfst]
        rw [hstep]
        have := ih
          (acc.1 + blobSize sz f.blob,
           (if freshName cfg σ.files σ.now p then acc.2.1 + 1 else acc.2.1),
           (if freshName cfg σ.files σ.now p then acc.2.2 else acc.2.2 + 1))
          (is_cache_valid cfg p (touch σ)).2
        simp only [is_cache_valid_snd_files', is_cache_valid_snd_ioFail,
          is_cache_valid_snd_dumpFail, is_cache_valid_snd_removeFail,
          is_cache_valid_snd_now, is_cache_valid_snd_lockDepth,
          touch_files, touch_ioFail, touch_dumpFail, touch_removeFail,
          touch_now, touch_lockDepth] at this
        refine ⟨?_, this.2⟩
        rw [this.1]
        by_cases hfr : freshName cfg σ.files σ.now p
        · simp [hok, hfr, hsize, List.countP_cons]
          omega
        · simp only [hfr, if_false]
          simp [hok, hfr, hsize, List.countP_cons]
          omega

/-- Full characterization of `get_cache_stats`. -/
theorem get_cache_stats_spec {α : Type} (sz : α → Nat) (cfg : Config) (σ : St α) :
    (get_cache_stats sz cfg σ).1.total_files =
      ((σ.files.map (fun e => e.1)).filter (fun p => pklName p)).length ∧
    (get_cache_stats sz cfg σ).1.total_size =
      ((((σ.files.map (fun e => e.1)).filter (fun p => pklName p)).filter
          (fun p => okName σ.files σ.ioFail p)).map
        (fun p => sizeOfName sz σ.files p)).sum ∧
    (get_cache_stats sz cfg σ).1.valid_files =
      ((σ.files.map (fun e => e.1)).filter (fun p => pklName p)).countP
        (fun p => okName σ.files σ.ioFail p && freshName cfg σ.files σ.now p) ∧
    (get_cache_stats sz cfg σ).1.expired_files =
      ((σ.files.map (fun e => e.1)).filter (fun p => pklName p)).countP
        (fun p => okName σ.files σ.ioFail p && !freshName cfg σ.files σ.now p) ∧
    (get_cache_stats sz cfg σ).1.cache_dir = cfg.cache_dir ∧
    (get_cache_stats sz cfg σ).1.expiry_days = cfg.expiry_days ∧
    (get_cache_stats sz cfg σ).1.max_size_mb = cfg.max_cache_size_mb ∧
    ((get_cache_stats sz cfg σ).2).files = σ.files ∧
    ((get_cache_stats sz cfg σ).2).ioFail = σ.ioFail ∧
    ((get_cache_stats sz cfg σ).2).dumpFail = σ.dumpFail ∧
    ((get_cache_stats sz cfg σ).2).removeFail = σ.removeFail ∧
    ((get_cache_stats sz cfg σ).2).now = σ.now ∧
    ((get_cache_stats sz cfg σ).2).lockDepth = σ.lockDepth := by
  have h := statsFold_spec sz cfg
    ((σ.files.map (fun e => e.1)).filter (fun p => pklName p))
    (0, 0, 0) (touch σ)
  simp only [touch_files, touch_ioFail, touch_dumpFail, touch_removeFail,
    touch_now, touch_lockDepth] at h
  obtain ⟨h1, h2, h3, h4, h5, h6, h7⟩ := h
  refine ⟨rfl, ?_, ?_, ?_, rfl, rfl, rfl, ?_, ?_, ?_, ?_, ?_, ?_⟩
  · show (statsFold sz cfg
        ((σ.files.map (fun e => e.1)).filter (fun p => pklName p))
        (0, 0, 0) (touch σ)).1.1 = _
    rw [h1]
    exact Nat.zero_add _
  · show (statsFold sz cfg
        ((σ.files.map (fun e => e.1)).filter (fun p => pklName p))
        (0, 0, 0) (touch σ)).1.2.1 = _
    rw [h1]
    exact Nat.zero_add _
  · show (statsFold sz cfg
        ((σ.files.map (fun e => e.1)).filter (fun p => pklName p))
        (0, 0, 0) (touch σ)).1.2.2 = _
    rw [h1]
    exact Nat.zero_add _
  · exact h2
  · exact h3
  · exact h4
  · exact h5
  · exact h6
  · exact h7

/-- C8: `get_cache_stats` returns a snapshot with `total_files`,
`valid_files`, `expired_files`, `total_size` and the configuration;
`total_files` counts every listed `.pkl` file, each readable entry is
classified valid or expired by the Validity Checker's verdict, and a file
whose `getsize` raises is skipped — excluded from the size and
validity/expiry counts — without aborting the scan. -/
theorem claim_C8_stats_snapshot {α : Type} (sz : α → Nat) (cfg : Config) (σ : St α) :
    (get_cache_stats sz cfg σ).1.total_files =
      ((σ.files.map (fun e => e.1)).filter (fun p => pklName p)).length ∧
    (get_cache_stats sz cfg σ).1.total_size =
      ((((σ.files.map (fun e => e.1)).filter (fun p => pklName p)).filter
          (fun p => okName σ.files σ.ioFail p)).map
        (fun p => sizeOfName sz σ.files p)).sum ∧
    (get_cache_stats sz cfg σ).1.valid_files =
      ((σ.files.map (fun e => e.1)).filter (fun p => pklName p)).countP
        (fun p => okName σ.files σ.ioFail p && freshName cfg σ.files σ.now p) ∧
    (get_cache_stats sz cfg σ).1.expired_files =
      ((σ.files.map (fun e => e.1)).filter (fun p => pklName p)).countP
        (fun p => okName σ.files σ.ioFail p && !freshName cfg σ.files σ.now p) ∧
    (get_cache_stats sz cfg σ).1.cache_dir = cfg.cache_dir ∧
    (get_cache_stats sz cfg σ).1.expiry_days = cfg.expiry_days ∧
    (get_cache_stats sz cfg σ).1.max_size_mb = cfg.max_cache_size_mb := by
  have h := get_cache_stats_spec sz cfg σ
  exact ⟨h.1, h.2.1, h.2.2.1, h.2.2.2.1, h.2.2.2.2.1, h.2.2.2.2.2.1,
    h.2.2.2.2.2.2.1⟩

/-- Mapping a lookup-based function over the `.pkl` names of a duplicate-free
directory is mapping the entry-based function over its `.pkl` entries. -/
theorem keys_filter_map {α : Type} {β : Type} (files : List (String × FileData α))
    (hnd : (files.map (fun e => e.1)).Nodup)
    (F : String × FileData α → β) (d : String → β) :
    ((files.map (fun e => e.1)).filter (fun p => pklName p)).map
      (fun p => match lookupL files p with
        | some f => F (p, f)
        | none => d p) =
    (files.filter (fun e => pklName e.1)).map F := by
  induction files with
  | nil => rfl
  | cons e t ih =>
    have hnd' : (e.1 :: t.map (fun x => x.1)).Nodup := by simpa using hnd
    have hkey : e.1 ∉ t.map (fun x => x.1) := (List.nodup_cons.mp hnd').1
    have hndt : (t.map (fun x => x.1)).Nodup := (List.nodup_cons.mp hnd').2
    have hcongr :
        ((t.map (fun x => x.1)).filter (fun p => pklName p)).map
          (fun p => match lookupL (e :: t) p with
            | some f => F (p, f)
            | none => d p) =
        ((t.map (fun x => x.1)).filter (fun p => pklName p)).map
          (fun p => match lookupL t p with
            | some f => F (p, f)
            | none => d p) := by
      apply List.map_congr_left
      intro q hq
      have hqmem : q ∈ t.map (fun x => x.1) := (List.mem_filter.mp hq).1
      have hne : ¬(e.1 == q) = true := by
        intro hb
        exact hkey ((eq_of_beq hb) ▸ hqmem)
      simp [lookupL, hne]
    by_cases hp : pklName e.1
    · have hself : lookupL (e :: t) e.1 = some e.2 := by
        simp [lookupL]
      simp only [List.map_cons, List.filter_cons, hp, if_pos]
      simp only [List.map_cons, hself]
      rw [hcongr, ih hndt]
    · simp only [List.map_cons, List.filter_cons, hp]
      simp only [Bool.false_eq_true, if_false]
      rw [hcongr, ih hndt]

/-- With no error-injected paths and unique names, the aggregate size
computed by `get_cache_stats` is the aggregate `.pkl` size on disk. -/
theorem total_size_eq_pklTotal {α : Type} (sz : α → Nat) (cfg : Config)
    (σ : St α) (hio : σ.ioFail = [])
    (hnd : (σ.files.map (fun e => e.1)).Nodup) :
    (get_cache_stats sz cfg σ).1.total_size = pklTotal sz σ.files := by
  have h := (get_cache_stats_spec sz cfg σ).2.1
  rw [h]
  have hfil : ((σ.files.map (fun e => e.1)).filter (fun p => pklName p)).filter
      (fun p => okName σ.files σ.ioFail p) =
      (σ.files.map (fun e => e.1)).filter (fun p => pklName p) := by
    apply List.filter_eq_self.mpr
    intro p hp
    have hpmem : p ∈ σ.files.map (fun e => e.1) := (List.mem_filter.mp hp).1
    simp [okName, hio]
    exact lookupL_isSome_of_mem_keys σ.files p hpmem
  rw [hfil]
  have hfun : (fun p => sizeOfName sz σ.files p) =
      (fun p => match lookupL σ.files p with
        | some f => blobSize sz f.blob
        | none => (fun _ : String => 0) p) := by
    funext p
    simp [sizeOfName]
  rw [hfun, keys_filter_map σ.files hnd (fun e => blobSize sz e.2.blob)
    (fun _ => 0)]
  rfl

/-- With no error-injected paths, the gather loop of `_cleanup_old_files`
collects exactly the `(path, mtime, size)` of the listed `.pkl` names and
only reads the directory. -/
theorem gatherFiles_spec {α : Type} (sz : α → Nat) (names : List String)
    (σ : St α) (hio : σ.ioFail = [])
    (hmem : ∀ p ∈ names, (lookupL σ.files p).isSome) :
    ∃ σ3, gatherFiles sz names σ =
      (Except.ok ((names.filter (fun p => pklName p)).map
        (fun p => (p, mtimeOfName σ.files p, sizeOfName sz σ.files p))), σ3) ∧
      σ3.files = σ.files ∧ σ3.ioFail = σ.ioFail ∧ σ3.dumpFail = σ.dumpFail ∧
      σ3.removeFail = σ.removeFail ∧ σ3.now = σ.now ∧
      σ3.lockDepth = σ.lockDepth := by
  induction names generalizing σ with
  | nil => exact ⟨σ, rfl, rfl, rfl, rfl, rfl, rfl, rfl⟩
  | cons p rest ih =>
    have hmemrest : ∀ q ∈ rest, (lookupL σ.files q).isSome := by
      intro q hq
      exact hmem q (List.mem_cons_of_mem p hq)
    by_cases hp : pyEndsWith p ".pkl"
    · cases hl : lookupL σ.files p with
      | none =>
        have := hmem p (List.mem_cons_self p rest)
        rw [hl] at this
        simp at this
      | some f =>
        obtain ⟨σ3, heq, h1, h2, h3, h4, h5, h6⟩ :=
          ih (touch (touch σ)) (by simpa using hio) (by simpa using hmemrest)
        refine ⟨σ3, ?_, by simpa using h1, by simpa using h2,
          by simpa using h3, by simpa using h4, by simpa using h5,
          by simpa using h6⟩
        simp only [touch_files] at heq
        simp [gatherFiles, os_path_getmtime, os_path_getsize, lookupFile,
          hp, hio, hl, heq, pklName, mtimeOfName, sizeOfName, List.filter_cons]
    · obtain ⟨σ3, heq, h1, h2, h3, h4, h5, h6⟩ := ih σ hio hmemrest
      refine ⟨σ3, ?_, h1, h2, h3, h4, h5, h6⟩
      simp [gatherFiles, hp, heq, pklName, List.filter_cons]

theorem lookupL_eq_none {α : Type} (files : List (String × FileData α))
    (p : String) (h : p ∉ files.map (fun e => e.1)) : lookupL files p = none := by
  induction files with
  | nil => rfl
  | cons e t ih =>
    have he : ¬(e.1 == p) = true := by
      intro hb
      exact h (by simp [eq_of_beq hb])
    have ht : p ∉ t.map (fun e => e.1) := by
      intro hmem
      exact h (List.mem_cons_of_mem _ hmem)
    simpa [lookupL, he] using ih ht

/-- Erasing one `.pkl` entry removes exactly its size from the aggregate. -/
theorem pklTotal_erase {α : Type} (sz : α → Nat)
    (files : List (String × FileData α)) (p : String) (f : FileData α)
    (hnd : (files.map (fun e => e.1)).Nodup)
    (hl : lookupL files p = some f) (hpk : pklName p = true) :
    pklTotal sz (eraseFile files p) + blobSize sz f.blob = pklTotal sz files := by
  induction files with
  | nil => simp [lookupL] at hl
  | cons e t ih =>
    have hnd' : (e.1 :: t.map (fun x => x.1)).Nodup := by simpa using hnd
    have hkey : e.1 ∉ t.map (fun x => x.1) := (List.nodup_cons.mp hnd').1
    have hndt : (t.map (fun x => x.1)).Nodup := (List.nodup_cons.mp hnd').2
    by_cases he : e.1 == p
    · have hef : f = e.2 := by
        simp [lookupL, he] at hl
        exact hl.symm
      have hpe : p = e.1 := (eq_of_beq he).symm
      have ht : eraseFile t p = t := by
        apply eraseFile_absent
        apply lookupL_eq_none
        rw [← hpe] at hkey
        exact hkey
      have hpke : pklName e.1 = true := by
        rw [hpe] at hpk
        exact hpk
      have hE : eraseFile (e :: t) p = t := by
        have hE0 : eraseFile (e :: t) p = eraseFile t p := by
          simp [eraseFile, List.filter_cons, he]
        rw [hE0, ht]
      rw [hE, hef]
      have h3 : pklTotal sz (e :: t) = blobSize sz e.2.blob + pklTotal sz t := by
        simp [pklTotal, List.filter_cons, hpke]
      rw [h3]
      omega
    · have hlt : lookupL t p = some f := by
        simpa [lookupL, he] using hl
      have hIH := ih hndt hlt
      have hE : eraseFile (e :: t) p = e :: eraseFile t p := by
        simp [eraseFile, List.filter_cons, he]
      rw [hE]
      by_cases hpe : pklName e.1
      · have h2 : pklTotal sz (e :: eraseFile t p) =
            blobSize sz e.2.blob + pklTotal sz (eraseFile t p) := by
          simp [pklTotal, List.filter_cons, hpe]
        have h3 : pklTotal sz (e :: t) = blobSize sz e.2.blob + pklTotal sz t := by
          simp [pklTotal, List.filter_cons, hpe]
        rw [h2, h3]
        omega
      · have h2 : pklTotal sz (e :: eraseFile t p) = pklTotal sz (eraseFile t p) := by
          simp [pklTotal, List.filter_cons, hpe]
        have h3 : pklTotal sz (e :: t) = pklTotal sz t := by
          simp [pklTotal, List.filter_cons, hpe]
        rw [h2, h3]
        exact hIH

/-- Run of the removal loop of `_cleanup_old_files` on a coherent snapshot
list, with no removal failures: it removes a prefix of the list, stopping at
the first point where the remaining size is within the target. -/
theorem evictLoop_run {α : Type} (sz : α → Nat) (target : ℚ) :
    ∀ (L : List (String × Int × Nat)) (σ : St α) (current : Nat),
    σ.removeFail = [] →
    (σ.files.map (fun e => e.1)).Nodup →
    (L.map (fun e => e.1)).Nodup →
    (∀ e ∈ L, pklName e.1 = true ∧
      ∃ f, lookupL σ.files e.1 = some f ∧ e.2.2 = blobSize sz f.blob) →
    current = pklTotal sz σ.files →
    current = (L.map (fun e => e.2.2)).sum →
    ∃ k ≤ L.length,
      (evictLoop target L current σ).1 = ((L.drop k).map (fun e => e.2.2)).sum ∧
      ((evictLoop target L current σ).2).files = eraseAll σ.files (L.take k) ∧
      pklTotal sz ((evictLoop target L current σ).2).files =
        ((L.drop k).map (fun e => e.2.2)).sum ∧
      (k = L.length ∨
        ((((L.drop k).map (fun e => e.2.2)).sum : Nat) : ℚ) ≤ target) ∧
      (∀ j < k, target < ((((L.drop j).map (fun e => e.2.2)).sum : Nat) : ℚ)) ∧
      ((evictLoop target L current σ).2).ioFail = σ.ioFail ∧
      ((evictLoop target L current σ).2).dumpFail = σ.dumpFail ∧
      ((evictLoop target L current σ).2).removeFail = σ.removeFail ∧
      ((evictLoop target L current σ).2).now = σ.now ∧
      ((evictLoop target L current σ).2).lockDepth = σ.lockDepth := by
  intro L
  induction L with
  | nil =>
    intro σ current hrm hnd hLnd hcoh hcur hsum
    refine ⟨0, by simp, ?_, ?_, ?_, Or.inl rfl, ?_, rfl, rfl, rfl, rfl, rfl⟩
    · simpa [evictLoop] using hsum
    · simp [evictLoop, eraseAll]
    · simpa [evictLoop] using hcur.symm.trans hsum
    · intro j hj
      omega
  | cons x rest ih =>
    intro σ current hrm hnd hLnd hcoh hcur hsum
    obtain ⟨p, t, s⟩ := x
    by_cases hstop : (current : ℚ) ≤ target
    · have h1 : evictLoop target ((p, t, s) :: rest) current σ = (current, σ) := by
        simp [evictLoop, hstop]
      refine ⟨0, by simp, ?_, ?_, ?_, ?_, ?_, ?_, ?_, ?_, ?_, ?_⟩
      · rw [h1]; exact hsum
      · rw [h1]; simp [eraseAll]
      · rw [h1]; exact hcur.symm.trans hsum
      · right
        rw [List.drop_zero, ← hsum]
        exact hstop
      · intro j hj; omega
      · rw [h1]
      · rw [h1]
      · rw [h1]
      · rw [h1]
      · rw [h1]
    · have hcohx := hcoh (p, t, s) (List.mem_cons_self _ _)
      obtain ⟨hpk, f, hl, hs⟩ := hcohx
      have hs' : s = blobSize sz f.blob := hs
      have hrmc : p ∉ σ.removeFail := by
        rw [hrm]; exact List.not_mem_nil p
      have hstep : evictLoop target ((p, t, s) :: rest) current σ =
          evictLoop target rest (current - s)
            { touch σ with files := eraseFile σ.files p } := by
        simp [evictLoop, hstop, os_remove, lookupFile, hl, hrm]
      set σ1 : St α := { touch σ with files := eraseFile σ.files p } with hσ1
      have hσ1files : σ1.files = eraseFile σ.files p := by simp [hσ1]
      have hσ1rm : σ1.removeFail = [] := by simp [hσ1, hrm]
      have hσ1nd : (σ1.files.map (fun e => e.1)).Nodup := by
        rw [hσ1files]
        exact eraseFile_keys_nodup σ.files p hnd
      have hrestnd : (rest.map (fun e => e.1)).Nodup := by
        simpa using hLnd.of_cons
      have hpnotin : p ∉ rest.map (fun e => e.1) := by
        have h := hLnd
        simp only [List.map_cons] at h
        exact (List.nodup_cons.mp h).1
      have hcohrest : ∀ e ∈ rest, pklName e.1 = true ∧
          ∃ g, lookupL σ1.files e.1 = some g ∧ e.2.2 = blobSize sz g.blob := by
        intro e hmem
        obtain ⟨hpk', g, hl', hs'⟩ := hcoh e (List.mem_cons_of_mem _ hmem)
        refine ⟨hpk', g, ?_, hs'⟩
        rw [hσ1files, lookupL_erase_ne σ.files p e.1
          (by
            intro hEq
            exact hpnotin (hEq ▸ List.mem_map.mpr ⟨e, hmem, rfl⟩))]
        exact hl'
      have hse : pklTotal sz (eraseFile σ.files p) + blobSize sz f.blob =
          pklTotal sz σ.files := pklTotal_erase sz σ.files p f hnd hl hpk
      have hsum' : current - s = (rest.map (fun e => e.2.2)).sum := by
        simp only [List.map_cons, List.sum_cons] at hsum
        omega
      have hcur' : current - s = pklTotal sz σ1.files := by
        rw [hσ1files]
        have hcs : current = pklTotal sz (eraseFile σ.files p) + s := by
          rw [hcur, ← hse, hs']
        omega
      obtain ⟨k', hk'le, ha, hb, hc, hd, he', hf1, hf2, hf3, hf4, hf5⟩ :=
        ih σ1 (current - s) hσ1rm hσ1nd hrestnd hcohrest hcur' hsum'
      refine ⟨k' + 1, by simpa using Nat.succ_le_succ hk'le, ?_, ?_, ?_, ?_, ?_,
        ?_, ?_, ?_, ?_, ?_⟩
      · rw [hstep]; exact ha
      · rw [hstep, hb]
        simp [eraseAll, hσ1files]
      · rw [hstep]; exact hc
      · rcases hd with hd | hd
        · left; simpa using congrArg Nat.succ hd
        · right; exact hd
      · intro j hj
        cases j with
        | zero =>
          simp only [List.drop_zero]
          rw [← hsum]
          exact lt_of_not_le hstop
        | succ j' =>
          have := he' j' (by omega)
          simpa using this
      · rw [hstep]; simpa [hσ1] using hf1
      · rw [hstep]; simpa [hσ1] using hf2
      · rw [hstep]; simpa [hσ1] using hf3
      · rw [hstep]; simpa [hσ1] using hf4
      · rw [hstep]; simpa [hσ1] using hf5

/-- Run of `_cleanup_old_files` on a fault-free, duplicate-free directory:
it deletes a prefix of the mtime-sorted `.pkl` entries, stopping as soon as
the remaining aggregate size is at most 80% of the limit. -/
theorem cleanup_old_files_spec {α : Type} (sz : α → Nat) (cfg : Config)
    (σ : St α) (hio : σ.ioFail = []) (hrm : σ.removeFail = [])
    (hnd : (σ.files.map (fun e => e.1)).Nodup) :
    ∃ k ≤ ((pklEntries sz σ.files).mergeSort
        (fun a b => decide (a.2.1 ≤ b.2.1))).length,
      (_cleanup_old_files sz cfg σ).files =
        eraseAll σ.files (((pklEntries sz σ.files).mergeSort
          (fun a b => decide (a.2.1 ≤ b.2.1))).take k) ∧
      pklTotal sz (_cleanup_old_files sz cfg σ).files =
        ((((pklEntries sz σ.files).mergeSort
          (fun a b => decide (a.2.1 ≤ b.2.1))).drop k).map
            (fun e => e.2.2)).sum ∧
      (k = ((pklEntries sz σ.files).mergeSort
          (fun a b => decide (a.2.1 ≤ b.2.1))).length ∨
        ((((((pklEntries sz σ.files).mergeSort
          (fun a b => decide (a.2.1 ≤ b.2.1))).drop k).map
            (fun e => e.2.2)).sum : Nat) : ℚ) ≤
          (cfg.max_cache_size_mb : ℚ) * 1024 * 1024 * (8 / 10)) ∧
      (∀ j < k, (cfg.max_cache_size_mb : ℚ) * 1024 * 1024 * (8 / 10) <
        ((((((pklEntries sz σ.files).mergeSort
          (fun a b => decide (a.2.1 ≤ b.2.1))).drop j).map
            (fun e => e.2.2)).sum : Nat) : ℚ)) ∧
      (_cleanup_old_files sz cfg σ).ioFail = σ.ioFail ∧
      (_cleanup_old_files sz cfg σ).dumpFail = σ.dumpFail ∧
      (_cleanup_old_files sz cfg σ).removeFail = σ.removeFail ∧
      (_cleanup_old_files sz cfg σ).now = σ.now ∧
      (_cleanup_old_files sz cfg σ).lockDepth = σ.lockDepth := by
  have hmem : ∀ p ∈ (touch σ).files.map (fun e => e.1),
      (lookupL (touch σ).files p).isSome := by
    intro p hp
    exact lookupL_isSome_of_mem_keys _ p hp
  obtain ⟨σ3, hgeq, hg1, hg2, hg3, hg4, hg5, hg6⟩ :=
    gatherFiles_spec sz ((touch σ).files.map (fun e => e.1)) (touch σ)
      (by simpa using hio) hmem
  simp only [touch_files, touch_ioFail, touch_dumpFail, touch_removeFail,
    touch_now, touch_lockDepth] at hgeq hg1 hg2 hg3 hg4 hg5 hg6
  have hfun : (fun p => (p, mtimeOfName σ.files p, sizeOfName sz σ.files p)) =
      (fun p => match lookupL σ.files p with
        | some f =>
          (fun e : String × FileData α => (e.1, e.2.mtime, blobSize sz e.2.blob))
            (p, f)
        | none => (fun q : String => (q, (0 : Int), (0 : Nat))) p) := by
    funext p
    cases h : lookupL σ.files p with
    | none => simp [mtimeOfName, sizeOfName, h]
    | some f => simp [mtimeOfName, sizeOfName, h]
  have hG : ((σ.files.map (fun e => e.1)).filter (fun p => pklName p)).map
      (fun p => (p, mtimeOfName σ.files p, sizeOfName sz σ.files p)) =
      pklEntries sz σ.files := by
    rw [hfun, keys_filter_map σ.files hnd
      (fun e => (e.1, e.2.mtime, blobSize sz e.2.blob)) (fun q => (q, 0, 0))]
    rfl
  rw [hG] at hgeq
  have hunfold : _cleanup_old_files sz cfg σ =
      (evictLoop ((cfg.max_cache_size_mb : ℚ) * 1024 * 1024 * (8 / 10))
        ((pklEntries sz σ.files).mergeSort (fun a b => decide (a.2.1 ≤ b.2.1)))
        ((pklEntries sz σ.files).map (fun f => f.2.2)).sum σ3).2 := by
    simp only [_cleanup_old_files, os_listdir_fst, os_listdir_snd]
    rw [hgeq]
  have hperm : List.Perm ((pklEntries sz σ.files).mergeSort
      (fun a b => decide (a.2.1 ≤ b.2.1))) (pklEntries sz σ.files) :=
    List.mergeSort_perm _ _
  have hEkeys : (pklEntries sz σ.files).map (fun e => e.1) =
      (σ.files.filter (fun e => pklName e.1)).map (fun e => e.1) := by
    simp [pklEntries, List.map_map]
  have hEnd : ((pklEntries sz σ.files).map (fun e => e.1)).Nodup := by
    rw [hEkeys]
    exact ((List.filter_sublist σ.files).map (fun e => e.1)).nodup hnd
  have hLnd : (((pklEntries sz σ.files).mergeSort
      (fun a b => decide (a.2.1 ≤ b.2.1))).map (fun e => e.1)).Nodup :=
    ((hperm.map (fun e => e.1)).nodup_iff).mpr hEnd
  have hnd3 : (σ3.files.map (fun e => e.1)).Nodup := by
    rw [hg1]; exact hnd
  have hcoh : ∀ e ∈ (pklEntries sz σ.files).mergeSort
      (fun a b => decide (a.2.1 ≤ b.2.1)), pklName e.1 = true ∧
      ∃ f, lookupL σ3.files e.1 = some f ∧ e.2.2 = blobSize sz f.blob := by
    intro e hmemL
    have hmemE : e ∈ pklEntries sz σ.files := (hperm.mem_iff).mp hmemL
    obtain ⟨en, hmemf, hform⟩ := List.mem_map.mp hmemE
    have hpk : pklName en.1 = true := by
      have := List.mem_filter.mp hmemf
      exact this.2
    have hmem0 : en ∈ σ.files := List.mem_of_mem_filter hmemf
    refine ⟨?_, en.2, ?_, ?_⟩
    · rw [← hform]
      exact hpk
    · rw [hg1, ← hform]
      exact lookupL_mem σ.files en hmem0 hnd
    · rw [← hform]
  have hcurmap : (pklEntries sz σ.files).map (fun f => f.2.2) =
      (σ.files.filter (fun e => pklName e.1)).map
        (fun e => blobSize sz e.2.blob) := by
    simp [pklEntries, List.map_map]
  have hcur : ((pklEntries sz σ.files).map (fun f => f.2.2)).sum =
      pklTotal sz σ3.files := by
    rw [hg1, hcurmap]
    rfl
  have hsum : ((pklEntries sz σ.files).map (fun f => f.2.2)).sum =
      (((pklEntries sz σ.files).mergeSort
        (fun a b => decide (a.2.1 ≤ b.2.1))).map (fun e => e.2.2)).sum :=
    ((hperm.map (fun e => e.2.2)).sum_eq).symm
  obtain ⟨k, hkle, ha, hb, hc, hd, he', hf1, hf2, hf3, hf4, hf5⟩ :=
    evictLoop_run sz ((cfg.max_cache_size_mb : ℚ) * 1024 * 1024 * (8 / 10))
      ((pklEntries sz σ.files).mergeSort (fun a b => decide (a.2.1 ≤ b.2.1)))
      σ3 ((pklEntries sz σ.files).map (fun f => f.2.2)).sum
      (by rw [hg4, hrm]) hnd3 hLnd hcoh hcur hsum
  refine ⟨k, hkle, ?_, ?_, ?_, he', ?_, ?_, ?_, ?_, ?_⟩
  · rw [hunfold, hb, hg1]
  · rw [hunfold, hc]
  · exact hd
  · rw [hunfold, hf1, hg2]
  · rw [hunfold, hf2, hg3]
  · rw [hunfold, hf3, hg4]
  · rw [hunfold, hf4, hg5]
  · rw [hunfold, hf5, hg6]

/-- `_cleanup_if_needed` on a fault-free, duplicate-free directory: no
deletion at or below the limit, the `_cleanup_old_files` pass above it; the
error-injection lists, the clock and the lock depth are untouched either
way. -/
theorem cleanup_if_needed_spec {α : Type} (sz : α → Nat) (cfg : Config)
    (σ : St α) (hio : σ.ioFail = []) (hrm : σ.removeFail = [])
    (hnd : (σ.files.map (fun e => e.1)).Nodup) :
    (((pklTotal sz σ.files : Int) ≤ cfg.max_cache_size_mb * 1024 * 1024) →
      (_cleanup_if_needed sz cfg σ).files = σ.files) ∧
    ((cfg.max_cache_size_mb * 1024 * 1024 < (pklTotal sz σ.files : Int)) →
      ∃ k ≤ ((pklEntries sz σ.files).mergeSort
          (fun a b => decide (a.2.1 ≤ b.2.1))).length,
        (_cleanup_if_needed sz cfg σ).files =
          eraseAll σ.files (((pklEntries sz σ.files).mergeSort
            (fun a b => decide (a.2.1 ≤ b.2.1))).take k) ∧
        pklTotal sz (_cleanup_if_needed sz cfg σ).files =
          ((((pklEntries sz σ.files).mergeSort
            (fun a b => decide (a.2.1 ≤ b.2.1))).drop k).map
              (fun e => e.2.2)).sum ∧
        (k = ((pklEntries sz σ.files).mergeSort
            (fun a b => decide (a.2.1 ≤ b.2.1))).length ∨
          ((((((pklEntries sz σ.files).mergeSort
            (fun a b => decide (a.2.1 ≤ b.2.1))).drop k).map
              (fun e => e.2.2)).sum : Nat) : ℚ) ≤
            (cfg.max_cache_size_mb : ℚ) * 1024 * 1024 * (8 / 10)) ∧
        (∀ j < k, (cfg.max_cache_size_mb : ℚ) * 1024 * 1024 * (8 / 10) <
          ((((((pklEntries sz σ.files).mergeSort
            (fun a b => decide (a.2.1 ≤ b.2.1))).drop j).map
              (fun e => e.2.2)).sum : Nat) : ℚ))) ∧
    (_cleanup_if_needed sz cfg σ).ioFail = σ.ioFail ∧
    (_cleanup_if_needed sz cfg σ).dumpFail = σ.dumpFail ∧
    (_cleanup_if_needed sz cfg σ).removeFail = σ.removeFail ∧
    (_cleanup_if_needed sz cfg σ).now = σ.now ∧
    (_cleanup_if_needed sz cfg σ).lockDepth = σ.lockDepth := by
  have hts : (get_cache_stats sz cfg σ).1.total_size = pklTotal sz σ.files :=
    total_size_eq_pklTotal sz cfg σ hio hnd
  have hst := get_cache_stats_spec sz cfg σ
  have hsf : ((get_cache_stats sz cfg σ).2).files = σ.files := hst.2.2.2.2.2.2.2.1
  have hsio : ((get_cache_stats sz cfg σ).2).ioFail = σ.ioFail :=
    hst.2.2.2.2.2.2.2.2.1
  have hsdf : ((get_cache_stats sz cfg σ).2).dumpFail = σ.dumpFail :=
    hst.2.2.2.2.2.2.2.2.2.1
  have hsrf : ((get_cache_stats sz cfg σ).2).removeFail = σ.removeFail :=
    hst.2.2.2.2.2.2.2.2.2.2.1
  have hsnow : ((get_cache_stats sz cfg σ).2).now = σ.now :=
    hst.2.2.2.2.2.2.2.2.2.2.2.1
  have hsld : ((get_cache_stats sz cfg σ).2).lockDepth = σ.lockDepth :=
    hst.2.2.2.2.2.2.2.2.2.2.2.2
  by_cases hgt : cfg.max_cache_size_mb * 1024 * 1024 <
      ((get_cache_stats sz cfg σ).1.total_size : Int)
  · have hunfold : _cleanup_if_needed sz cfg σ =
        _cleanup_old_files sz cfg (get_cache_stats sz cfg σ).2 := by
      simp only [_cleanup_if_needed]
      rw [if_pos hgt]
    obtain ⟨k, hkle, ha, hb, hc, hd, hf1, hf2, hf3, hf4, hf5⟩ :=
      cleanup_old_files_spec sz cfg (get_cache_stats sz cfg σ).2
        (by rw [hsio, hio]) (by rw [hsrf, hrm]) (by rw [hsf]; exact hnd)
    rw [hsf] at ha hb hc hd hkle
    rw [hts] at hgt
    refine ⟨?_, ?_, ?_, ?_, ?_, ?_, ?_⟩
    · intro hle
      omega
    · intro _
      exact ⟨k, hkle, by rw [hunfold]; exact ha, by rw [hunfold]; exact hb,
        hc, hd⟩
    · rw [hunfold, hf1, hsio]
    · rw [hunfold, hf2, hsdf]
    · rw [hunfold, hf3, hsrf]
    · rw [hunfold, hf4, hsnow]
    · rw [hunfold, hf5, hsld]
  · have hunfold : _cleanup_if_needed sz cfg σ = (get_cache_stats sz cfg σ).2 := by
      simp only [_cleanup_if_needed]
      rw [if_neg hgt]
    rw [hts] at hgt
    refine ⟨?_, ?_, ?_, ?_, ?_, ?_, ?_⟩
    · intro _
      rw [hunfold, hsf]
    · intro hlt
      omega
    · rw [hunfold, hsio]
    · rw [hunfold, hsdf]
    · rw [hunfold, hsrf]
    · rw [hunfold, hsnow]
    · rw [hunfold, hsld]

/-- A fault-free `save_to_cache`: the temporary file is written and atomically
renamed over the entry, then the size check runs; the result is success. -/
theorem save_success_run {α : Type} (sz : α → Nat) (cfg : Config) (key : String)
    (data : α) (σ : St α)
    (hio1 : get_cache_path key ++ ".tmp" ∉ σ.ioFail)
    (hio2 : get_cache_path key ∉ σ.ioFail)
    (hdump : get_cache_path key ++ ".tmp" ∉ σ.dumpFail)
    (htemp : lookupL σ.files (get_cache_path key ++ ".tmp") = none) :
    save_to_cache sz cfg key data σ =
      (true,
        { _cleanup_if_needed sz cfg
            ⟨setFile σ.files (get_cache_path key) ⟨Blob.pickled data, σ.now⟩,
             σ.ioFail, σ.dumpFail, σ.removeFail, σ.now, σ.lockDepth + 1,
             σ.unlocked⟩ with
          lockDepth :=
            (_cleanup_if_needed sz cfg
              ⟨setFile σ.files (get_cache_path key) ⟨Blob.pickled data, σ.now⟩,
               σ.ioFail, σ.dumpFail, σ.removeFail, σ.now, σ.lockDepth + 1,
               σ.unlocked⟩).lockDepth - 1 }) := by
  have htch : touch ({ σ with lockDepth := σ.lockDepth + 1 } : St α) =
      { σ with lockDepth := σ.lockDepth + 1 } :=
    touch_locked _ (by simp)
  have hw : openWrite (get_cache_path key ++ ".tmp") (Blob.pickled data)
      ({ σ with lockDepth := σ.lockDepth + 1 } : St α) =
      (Except.ok (),
        ⟨setFile σ.files (get_cache_path key ++ ".tmp")
          ⟨Blob.pickled data, σ.now⟩,
         σ.ioFail, σ.dumpFail, σ.removeFail, σ.now, σ.lockDepth + 1,
         σ.unlocked⟩) := by
    unfold openWrite
    rw [if_neg (by simpa using hio1), if_neg (by simpa using hdump), htch]
  have htch2 : touch
      (⟨setFile σ.files (get_cache_path key ++ ".tmp")
          ⟨Blob.pickled data, σ.now⟩,
        σ.ioFail, σ.dumpFail, σ.removeFail, σ.now, σ.lockDepth + 1,
        σ.unlocked⟩ : St α) = _ :=
    touch_locked _ (by simp)
  have hrep : os_replace (get_cache_path key ++ ".tmp") (get_cache_path key)
      (⟨setFile σ.files (get_cache_path key ++ ".tmp")
          ⟨Blob.pickled data, σ.now⟩,
        σ.ioFail, σ.dumpFail, σ.removeFail, σ.now, σ.lockDepth + 1,
        σ.unlocked⟩ : St α) =
      (Except.ok (),
        ⟨setFile σ.files (get_cache_path key) ⟨Blob.pickled data, σ.now⟩,
         σ.ioFail, σ.dumpFail, σ.removeFail, σ.now, σ.lockDepth + 1,
         σ.unlocked⟩) := by
    unfold os_replace
    rw [if_neg (by simp [hio1, hio2])]
    have hl : lookupFile
        (⟨setFile σ.files (get_cache_path key ++ ".tmp")
            ⟨Blob.pickled data, σ.now⟩,
          σ.ioFail, σ.dumpFail, σ.removeFail, σ.now, σ.lockDepth + 1,
          σ.unlocked⟩ : St α) (get_cache_path key ++ ".tmp") =
        some ⟨Blob.pickled data, σ.now⟩ := by
      show lookupL (setFile σ.files (get_cache_path key ++ ".tmp")
        ⟨Blob.pickled data, σ.now⟩) (get_cache_path key ++ ".tmp") = _
      exact lookupL_setFile_self _ _ _
    rw [hl, htch2]
    show (Except.ok (), _) = _
    have hfe : eraseFile (setFile σ.files (get_cache_path key ++ ".tmp")
        ⟨Blob.pickled data, σ.now⟩) (get_cache_path key ++ ".tmp") = σ.files := by
      rw [eraseFile_setFile]
      exact eraseFile_absent _ _ htemp
    simp [hfe]
  show (withLock _ σ : Bool × St α) = _
  unfold withLock
  simp only [hw, hrep, save_to_cache]

/-- C2: after a successful save (fault-free, duplicate-free directory), if the
aggregate `.pkl` size exceeds the configured maximum, the eviction pass
deletes a prefix of the entries sorted by last-modified time ascending —
oldest first — stopping as soon as the aggregate size is at or below 80% of
the maximum (so every earlier stopping point was still above it); if the
aggregate size does not exceed the maximum, no entry is deleted. -/
theorem claim_C2_size_eviction {α : Type} (sz : α → Nat) (cfg : Config)
    (key : String) (data : α) (σ : St α)
    (hio : σ.ioFail = []) (hdump : σ.dumpFail = []) (hrm : σ.removeFail = [])
    (hnd : (σ.files.map (fun e => e.1)).Nodup)
    (htemp : lookupL σ.files (get_cache_path key ++ ".tmp") = none)
    (hmax : 0 ≤ cfg.max_cache_size_mb) :
    (save_to_cache sz cfg key data σ).1 = true ∧
    (((pklTotal sz (setFile σ.files (get_cache_path key)
        ⟨Blob.pickled data, σ.now⟩) : Int) ≤
        cfg.max_cache_size_mb * 1024 * 1024) →
      ((save_to_cache sz cfg key data σ).2).files =
        setFile σ.files (get_cache_path key) ⟨Blob.pickled data, σ.now⟩) ∧
    ((cfg.max_cache_size_mb * 1024 * 1024 <
        (pklTotal sz (setFile σ.files (get_cache_path key)
          ⟨Blob.pickled data, σ.now⟩) : Int)) →
      List.Pairwise (fun a b => a.2.1 ≤ b.2.1)
        ((pklEntries sz (setFile σ.files (get_cache_path key)
          ⟨Blob.pickled data, σ.now⟩)).mergeSort
            (fun a b => decide (a.2.1 ≤ b.2.1))) ∧
      ∃ k ≤ ((pklEntries sz (setFile σ.files (get_cache_path key)
          ⟨Blob.pickled data, σ.now⟩)).mergeSort
            (fun a b => decide (a.2.1 ≤ b.2.1))).length,
        ((save_to_cache sz cfg key data σ).2).files =
          eraseAll (setFile σ.files (get_cache_path key)
            ⟨Blob.pickled data, σ.now⟩)
            (((pklEntries sz (setFile σ.files (get_cache_path key)
              ⟨Blob.pickled data, σ.now⟩)).mergeSort
                (fun a b => decide (a.2.1 ≤ b.2.1))).take k) ∧
        ((pklTotal sz ((save_to_cache sz cfg key data σ).2).files : Nat) : ℚ) ≤
          (cfg.max_cache_size_mb : ℚ) * 1024 * 1024 * (8 / 10) ∧
        (∀ j < k, (cfg.max_cache_size_mb : ℚ) * 1024 * 1024 * (8 / 10) <
          ((((((pklEntries sz (setFile σ.files (get_cache_path key)
            ⟨Blob.pickled data, σ.now⟩)).mergeSort
              (fun a b => decide (a.2.1 ≤ b.2.1))).drop j).map
                (fun e => e.2.2)).sum : Nat) : ℚ))) := by
  have hio1 : get_cache_path key ++ ".tmp" ∉ σ.ioFail := by
    rw [hio]; exact List.not_mem_nil _
  have hio2 : get_cache_path key ∉ σ.ioFail := by
    rw [hio]; exact List.not_mem_nil _
  have hdump1 : get_cache_path key ++ ".tmp" ∉ σ.dumpFail := by
    rw [hdump]; exact List.not_mem_nil _
  have hrun := save_success_run sz cfg key data σ hio1 hio2 hdump1 htemp
  have hndpost : ((setFile σ.files (get_cache_path key)
      ⟨Blob.pickled data, σ.now⟩).map (fun e => e.1)).Nodup :=
    setFile_keys_nodup σ.files _ _ hnd
  have hcs := cleanup_if_needed_spec sz cfg
    (⟨setFile σ.files (get_cache_path key) ⟨Blob.pickled data, σ.now⟩,
      σ.ioFail, σ.dumpFail, σ.removeFail, σ.now, σ.lockDepth + 1,
      σ.unlocked⟩ : St α) hio hrm hndpost
  have hfiles : ((save_to_cache sz cfg key data σ).2).files =
      (_cleanup_if_needed sz cfg
        (⟨setFile σ.files (get_cache_path key) ⟨Blob.pickled data, σ.now⟩,
          σ.ioFail, σ.dumpFail, σ.removeFail, σ.now, σ.lockDepth + 1,
          σ.unlocked⟩ : St α)).files := by
    rw [hrun]
  refine ⟨by rw [hrun], ?_, ?_⟩
  · intro hle
    rw [hfiles]
    exact hcs.1 hle
  · intro hgt
    constructor
    · have hsorted : List.Pairwise
          (fun a b => (decide ((a : String × Int × Nat).2.1 ≤ b.2.1)) = true)
          ((pklEntries sz (setFile σ.files (get_cache_path key)
            ⟨Blob.pickled data, σ.now⟩)).mergeSort
              (fun a b => decide (a.2.1 ≤ b.2.1))) := by
        apply List.sorted_mergeSort
        · intro b a c hab hbc
          simp at hab hbc ⊢
          omega
        · intro a b
          simp
          omega
      exact hsorted.imp (fun h => by simpa using h)
    · obtain ⟨k, hkle, ha, hb, hc, hd⟩ := hcs.2.1 hgt
      refine ⟨k, hkle, ?_, ?_, hd⟩
      · rw [hfiles]
        exact ha
      · rw [hfiles, hb]
        rcases hc with hc | hc
        · rw [hc, List.drop_length]
          simp
          positivity
        · exact hc

/-- Witness for C2: a save into a zero-budget cache succeeds and triggers the
eviction pass. -/
theorem claim_C2_size_eviction_witness :
    (save_to_cache szW cfgW0 "c" 7 σWbig).1 = true :=
  (claim_C2_size_eviction szW cfgW0 "c" 7 σWbig rfl rfl rfl (by decide) rfl
    (by decide)).1

/-- C1: round trip.  On a fault-free, duplicate-free directory with a positive
expiry window, if the aggregate size after the write stays within the
configured maximum (no eviction intervenes), then `save_to_cache` succeeds and
an immediate `load_from_cache` of the same key returns the saved payload. -/
theorem claim_C1_round_trip {α : Type} (sz : α → Nat) (cfg : Config)
    (key : String) (data : α) (σ : St α)
    (hio : σ.ioFail = []) (hdump : σ.dumpFail = []) (hrm : σ.removeFail = [])
    (hnd : (σ.files.map (fun e => e.1)).Nodup)
    (htemp : lookupL σ.files (get_cache_path key ++ ".tmp") = none)
    (hdays : 0 < cfg.expiry_days)
    (hsize : (pklTotal sz (setFile σ.files (get_cache_path key)
        ⟨Blob.pickled data, σ.now⟩) : Int) ≤
        cfg.max_cache_size_mb * 1024 * 1024) :
    (save_to_cache sz cfg key data σ).1 = true ∧
    (load_from_cache cfg key (save_to_cache sz cfg key data σ).2).1 =
      some data := by
  have hio1 : get_cache_path key ++ ".tmp" ∉ σ.ioFail := by
    rw [hio]; exact List.not_mem_nil _
  have hio2 : get_cache_path key ∉ σ.ioFail := by
    rw [hio]; exact List.not_mem_nil _
  have hdump1 : get_cache_path key ++ ".tmp" ∉ σ.dumpFail := by
    rw [hdump]; exact List.not_mem_nil _
  have hrun := save_success_run sz cfg key data σ hio1 hio2 hdump1 htemp
  have hndpost : ((setFile σ.files (get_cache_path key)
      ⟨Blob.pickled data, σ.now⟩).map (fun e => e.1)).Nodup :=
    setFile_keys_nodup σ.files _ _ hnd
  have hcs := cleanup_if_needed_spec sz cfg
    (⟨setFile σ.files (get_cache_path key) ⟨Blob.pickled data, σ.now⟩,
      σ.ioFail, σ.dumpFail, σ.removeFail, σ.now, σ.lockDepth + 1,
      σ.unlocked⟩ : St α) hio hrm hndpost
  have hfiles : ((save_to_cache sz cfg key data σ).2).files =
      setFile σ.files (get_cache_path key) ⟨Blob.pickled data, σ.now⟩ := by
    rw [hrun]
    exact hcs.1 hsize
  have hioA : ((save_to_cache sz cfg key data σ).2).ioFail = [] := by
    rw [hrun]
    show (_cleanup_if_needed sz cfg _).ioFail = []
    rw [hcs.2.2.1]
    exact hio
  have hnowA : ((save_to_cache sz cfg key data σ).2).now = σ.now := by
    rw [hrun]
    show (_cleanup_if_needed sz cfg _).now = σ.now
    rw [hcs.2.2.2.2.2.1]
  have hlook : lookupL ((save_to_cache sz cfg key data σ).2).files
      (get_cache_path key) = some ⟨Blob.pickled data, σ.now⟩ := by
    rw [hfiles]
    exact lookupL_setFile_self _ _ _
  refine ⟨by rw [hrun], ?_⟩
  have hv : (is_cache_valid cfg (get_cache_path key)
      { (save_to_cache sz cfg key data σ).2 with
        lockDepth := ((save_to_cache sz cfg key data σ).2).lockDepth + 1 }).1 =
      true := by
    rw [is_cache_valid_fst]
    simp only [freshName]
    have hl2 : lookupL ({ (save_to_cache sz cfg key data σ).2 with
        lockDepth := ((save_to_cache sz cfg key data σ).2).lockDepth + 1 } :
          St α).files (get_cache_path key) = some ⟨Blob.pickled data, σ.now⟩ :=
      hlook
    rw [hl2]
    simp [hioA, hnowA]
    omega
  have hread : openRead (get_cache_path key)
      (is_cache_valid cfg (get_cache_path key)
        { (save_to_cache sz cfg key data σ).2 with
          lockDepth := ((save_to_cache sz cfg key data σ).2).lockDepth + 1 }).2 =
      (Except.ok (Blob.pickled data),
        touch (is_cache_valid cfg (get_cache_path key)
          { (save_to_cache sz cfg key data σ).2 with
            lockDepth :=
              ((save_to_cache sz cfg key data σ).2).lockDepth + 1 }).2) := by
    unfold openRead
    rw [if_neg ?hne]
    case hne =>
      rw [is_cache_valid_snd_ioFail]
      show ¬(((save_to_cache sz cfg key data σ).2).ioFail.contains _ = true)
      rw [hioA]
      simp
    have : lookupFile (is_cache_valid cfg (get_cache_path key)
        { (save_to_cache sz cfg key data σ).2 with
          lockDepth := ((save_to_cache sz cfg key data σ).2).lockDepth + 1 }).2
        (get_cache_path key) = some ⟨Blob.pickled data, σ.now⟩ := by
      rw [lookupFile_eq, is_cache_valid_snd_files']
      exact hlook
    rw [this]
  simp [load_from_cache, withLock, hv, hread]

/-- Witness for C1: saving into an empty cache and loading returns the
payload. -/
theorem claim_C1_round_trip_witness :
    (save_to_cache szW cfgW "k" 7 σWempty).1 = true ∧
    (load_from_cache cfgW "k" (save_to_cache szW cfgW "k" 7 σWempty).2).1 =
      some 7 :=
  claim_C1_round_trip szW cfgW "k" 7 σWempty rfl rfl rfl (by decide) rfl
    (by decide) (by decide)

/-! ## Lock discipline -/

theorem touch_unlocked_locked {α : Type} (σ : St α) (h : 0 < σ.lockDepth) :
    (touch σ).unlocked = σ.unlocked := by
  rw [touch_locked _ h]

theorem openWrite_frame {α : Type} (p : String) (b : Blob α) (σ : St α) :
    ((openWrite p b σ).2).lockDepth = σ.lockDepth ∧
    (0 < σ.lockDepth → ((openWrite p b σ).2).unlocked = σ.unlocked) := by
  unfold openWrite
  split
  · exact ⟨by simp, fun h => touch_unlocked_locked σ h⟩
  · split
    · exact ⟨by simp, fun h => touch_unlocked_locked σ h⟩
    · exact ⟨by simp, fun h => touch_unlocked_locked σ h⟩

theorem os_replace_frame {α : Type} (src dst : String) (σ : St α) :
    ((os_replace src dst σ).2).lockDepth = σ.lockDepth ∧
    (0 < σ.lockDepth → ((os_replace src dst σ).2).unlocked = σ.unlocked) := by
  unfold os_replace
  split
  · exact ⟨by simp, fun h => touch_unlocked_locked σ h⟩
  · split
    · exact ⟨by simp, fun h => touch_unlocked_locked σ h⟩
    · exact ⟨by simp, fun h => touch_unlocked_locked σ h⟩

theorem os_remove_frame {α : Type} (p : String) (σ : St α) :
    ((os_remove p σ).2).lockDepth = σ.lockDepth ∧
    (0 < σ.lockDepth → ((os_remove p σ).2).unlocked = σ.unlocked) := by
  unfold os_remove
  split
  · exact ⟨by simp, fun h => touch_unlocked_locked σ h⟩
  · split
    · exact ⟨by simp, fun h => touch_unlocked_locked σ h⟩
    · exact ⟨by simp, fun h => touch_unlocked_locked σ h⟩

theorem is_cache_valid_frame {α : Type} (cfg : Config) (p : String) (σ : St α) :
    (0 < σ.lockDepth → ((is_cache_valid cfg p σ).2).unlocked = σ.unlocked) := by
  intro h
  rcases is_cache_valid_snd_eq cfg p σ with he | he <;> rw [he]
  · rw [touch_locked _ (by simpa using h), touch_locked _ h]
  · rw [touch_locked _ h]

theorem removeCorrupt_frame {α : Type} (p : String) (σ : St α) :
    ((removeCorrupt p σ : Option α × St α).2).lockDepth = σ.lockDepth ∧
    (0 < σ.lockDepth →
      ((removeCorrupt p σ : Option α × St α).2).unlocked = σ.unlocked) := by
  simp only [removeCorrupt, os_path_exists_snd]
  split
  · constructor
    · rw [(os_remove_frame p (touch σ)).1, touch_lockDepth]
    · intro h
      rw [(os_remove_frame p (touch σ)).2 (by simpa using h),
        touch_unlocked_locked σ h]
  · exact ⟨by simp, fun h => touch_unlocked_locked σ h⟩

theorem saveExceptBranch_frame {α : Type} (p : String) (σ : St α) :
    ((saveExceptBranch p σ : Bool × St α).2).lockDepth = σ.lockDepth ∧
    (0 < σ.lockDepth →
      ((saveExceptBranch p σ : Bool × St α).2).unlocked = σ.unlocked) := by
  simp only [saveExceptBranch, os_path_exists_snd]
  split
  · constructor
    · rw [(os_remove_frame p (touch σ)).1, touch_lockDepth]
    · intro h
      rw [(os_remove_frame p (touch σ)).2 (by simpa using h),
        touch_unlocked_locked σ h]
  · exact ⟨by simp, fun h => touch_unlocked_locked σ h⟩

theorem statsFold_frame {α : Type} (sz : α → Nat) (cfg : Config)
    (names : List String) (acc : Nat × Nat × Nat) (σ : St α) :
    (0 < σ.lockDepth →
      ((statsFold sz cfg names acc σ).2).unlocked = σ.unlocked) := by
  induction names generalizing acc σ with
  | nil =>
    intro h
    simp [statsFold]
  | cons p rest ih =>
    intro h
    by_cases hio : p ∈ σ.ioFail
    · have hstep : statsFold sz cfg (p :: rest) acc σ =
          statsFold sz cfg rest acc (touch σ) := by
        simp [statsFold, os_path_getsize, hio]
      rw [hstep, ih acc (touch σ) (by simpa using h),
        touch_unlocked_locked σ h]
    · cases hl : lookupL σ.files p with
      | none =>
        have hstep : statsFold sz cfg (p :: rest) acc σ =
            statsFold sz cfg rest acc (touch σ) := by
          simp [statsFold, os_path_getsize, lookupFile, hio, hl]
        rw [hstep, ih acc (touch σ) (by simpa using h),
          touch_unlocked_locked σ h]
      | some f =>
        have hstep : statsFold sz cfg (p :: rest) acc σ =
            statsFold sz cfg rest
              (acc.1 + blobSize sz f.blob,
               (if (is_cache_valid cfg p (touch σ)).1 = true then acc.2.1 + 1
                else acc.2.1),
               (if (is_cache_valid cfg p (touch σ)).1 = true then acc.2.2
                else acc.2.2 + 1))
              (is_cache_valid cfg p (touch σ)).2 := by
          simp [statsFold, os_path_getsize, lookupFile, hio, hl]
        have hld : 0 < ((is_cache_valid cfg p (touch σ)).2).lockDepth := by
          rw [is_cache_valid_snd_lockDepth, touch_lockDepth]
          exact h
        rw [hstep, ih _ _ hld,
          is_cache_valid_frame cfg p (touch σ) (by simpa using h),
          touch_unlocked_locked σ h]

theorem get_cache_stats_frame {α : Type} (sz : α → Nat) (cfg : Config)
    (σ : St α) (h : 0 < σ.lockDepth) :
    ((get_cache_stats sz cfg σ).2).unlocked = σ.unlocked := by
  show ((statsFold sz cfg _ (0, 0, 0) (touch σ)).2).unlocked = σ.unlocked
  rw [statsFold_frame sz cfg _ _ (touch σ) (by simpa using h),
    touch_unlocked_locked σ h]

theorem gatherFiles_frame {α : Type} (sz : α → Nat) (names : List String) :
    ∀ σ : St α,
    ((gatherFiles sz names σ).2).lockDepth = σ.lockDepth ∧
    (0 < σ.lockDepth →
      ((gatherFiles sz names σ).2).unlocked = σ.unlocked) := by
  induction names with
  | nil => exact fun σ => ⟨rfl, fun _ => rfl⟩
  | cons p rest ih =>
    intro σ
    unfold gatherFiles
    split
    · split
      · next e σa heq =>
        have hσa : σa = touch σ := (congrArg Prod.snd heq).symm
        rw [hσa]
        exact ⟨by simp, fun h => touch_unlocked_locked σ h⟩
      · next t σa heq =>
        have hσa : σa = touch σ := (congrArg Prod.snd heq).symm
        split
        · next e σb heq2 =>
          have hσb : σb = touch σa := (congrArg Prod.snd heq2).symm
          rw [hσb, hσa]
          constructor
          · simp
          · intro h
            rw [touch_unlocked_locked (touch σ) (by simpa using h),
              touch_unlocked_locked σ h]
        · next sv σb heq2 =>
          have hσb : σb = touch σa := (congrArg Prod.snd heq2).symm
          split
          · next l σc heq3 =>
            have hσc : σc = (gatherFiles sz rest σb).2 :=
              (congrArg Prod.snd heq3).symm
            rw [hσc, hσb, hσa]
            constructor
            · rw [(ih (touch (touch σ))).1]
              simp
            · intro h
              rw [(ih (touch (touch σ))).2 (by simpa using h),
                touch_unlocked_locked (touch σ) (by simpa using h),
                touch_unlocked_locked σ h]
          · next e σc heq3 =>
            have hσc : σc = (gatherFiles sz rest σb).2 :=
              (congrArg Prod.snd heq3).symm
            rw [hσc, hσb, hσa]
            constructor
            · rw [(ih (touch (touch σ))).1]
              simp
            · intro h
              rw [(ih (touch (touch σ))).2 (by simpa using h),
                touch_unlocked_locked (touch σ) (by simpa using h),
                touch_unlocked_locked σ h]
    · exact ih σ

theorem evictLoop_frame {α : Type} (target : ℚ)
    (L : List (String × Int × Nat)) :
    ∀ (current : Nat) (σ : St α),
    ((evictLoop target L current σ).2).lockDepth = σ.lockDepth ∧
    (0 < σ.lockDepth →
      ((evictLoop target L current σ).2).unlocked = σ.unlocked) := by
  induction L with
  | nil => exact fun current σ => ⟨rfl, fun _ => rfl⟩
  | cons x rest ih =>
    intro current σ
    obtain ⟨p, t, s⟩ := x
    unfold evictLoop
    split
    · exact ⟨rfl, fun _ => rfl⟩
    · split
      · next u σa heq =>
        have hσa : σa = (os_remove p σ).2 := (congrArg Prod.snd heq).symm
        constructor
        · rw [(ih _ σa).1, hσa, (os_remove_frame p σ).1]
        · intro h
          rw [(ih _ σa).2
              (by rw [hσa, (os_remove_frame p σ).1]; exact h),
            hσa, (os_remove_frame p σ).2 h]
      · next e σa heq =>
        have hσa : σa = (os_remove p σ).2 := (congrArg Prod.snd heq).symm
        constructor
        · rw [(ih _ σa).1, hσa, (os_remove_frame p σ).1]
        · intro h
          rw [(ih _ σa).2
              (by rw [hσa, (os_remove_frame p σ).1]; exact h),
            hσa, (os_remove_frame p σ).2 h]

theorem cleanup_old_files_frame {α : Type} (sz : α → Nat) (cfg : Config)
    (σ : St α) :
    ((_cleanup_old_files sz cfg σ).lockDepth = σ.lockDepth) ∧
    (0 < σ.lockDepth →
      (_cleanup_old_files sz cfg σ).unlocked = σ.unlocked) := by
  unfold _cleanup_old_files
  dsimp only
  split
  · next e σa heq =>
    have hσa : σa = (gatherFiles sz ((os_listdir σ).1) (touch σ)).2 :=
      (congrArg Prod.snd heq).symm
    rw [hσa]
    constructor
    · rw [(gatherFiles_frame sz _ (touch σ)).1]
      simp
    · intro h
      rw [(gatherFiles_frame sz _ (touch σ)).2 (by simpa using h),
        touch_unlocked_locked σ h]
  · next l σa heq =>
    have hσa : σa = (gatherFiles sz ((os_listdir σ).1) (touch σ)).2 :=
      (congrArg Prod.snd heq).symm
    have hld : σa.lockDepth = σ.lockDepth := by
      rw [hσa, (gatherFiles_frame sz _ (touch σ)).1]
      simp
    constructor
    · rw [(evictLoop_frame _ _ _ σa).1, hld]
    · intro h
      rw [(evictLoop_frame _ _ _ σa).2 (by rw [hld]; exact h), hσa,
        (gatherFiles_frame sz _ (touch σ)).2 (by simpa using h),
        touch_unlocked_locked σ h]

theorem cleanup_if_needed_frame {α : Type} (sz : α → Nat) (cfg : Config)
    (σ : St α) :
    ((_cleanup_if_needed sz cfg σ).lockDepth = σ.lockDepth) ∧
    (0 < σ.lockDepth →
      (_cleanup_if_needed sz cfg σ).unlocked = σ.unlocked) := by
  have hld : ((get_cache_stats sz cfg σ).2).lockDepth = σ.lockDepth :=
    (get_cache_stats_spec sz cfg σ).2.2.2.2.2.2.2.2.2.2.2.2
  unfold _cleanup_if_needed
  dsimp only
  split
  · constructor
    · rw [(cleanup_old_files_frame sz cfg _).1, hld]
    · intro h
      rw [(cleanup_old_files_frame sz cfg _).2 (by rw [hld]; exact h),
        get_cache_stats_frame sz cfg σ h]
  · exact ⟨hld, fun h => get_cache_stats_frame sz cfg σ h⟩

theorem clearLoop_frame {α : Type} (names : List String) :
    ∀ (removed : Nat) (σ : St α),
    ((clearLoop names removed σ).2).lockDepth = σ.lockDepth ∧
    (0 < σ.lockDepth →
      ((clearLoop names removed σ).2).unlocked = σ.unlocked) := by
  induction names with
  | nil => exact fun removed σ => ⟨rfl, fun _ => rfl⟩
  | cons p rest ih =>
    intro removed σ
    unfold clearLoop
    split
    · split
      · next u σa heq =>
        have hσa : σa = (os_remove p σ).2 := (congrArg Prod.snd heq).symm
        constructor
        · rw [(ih _ σa).1, hσa, (os_remove_frame p σ).1]
        · intro h
          rw [(ih _ σa).2 (by rw [hσa, (os_remove_frame p σ).1]; exact h),
            hσa, (os_remove_frame p σ).2 h]
      · next e σa heq =>
        have hσa : σa = (os_remove p σ).2 := (congrArg Prod.snd heq).symm
        constructor
        · rw [(ih _ σa).1, hσa, (os_remove_frame p σ).1]
        · intro h
          rw [(ih _ σa).2 (by rw [hσa, (os_remove_frame p σ).1]; exact h),
            hσa, (os_remove_frame p σ).2 h]
    · exact ih removed σ

theorem expiredLoop_frame {α : Type} (cfg : Config) (names : List String) :
    ∀ (removed : Nat) (σ : St α),
    ((expiredLoop cfg names removed σ).2).lockDepth = σ.lockDepth ∧
    (0 < σ.lockDepth →
      ((expiredLoop cfg names removed σ).2).unlocked = σ.unlocked) := by
  induction names with
  | nil => exact fun removed σ => ⟨rfl, fun _ => rfl⟩
  | cons p rest ih =>
    intro removed σ
    unfold expiredLoop
    dsimp only
    split
    · have hvld : ((is_cache_valid cfg p σ).2).lockDepth = σ.lockDepth :=
        is_cache_valid_snd_lockDepth cfg p σ
      split
      · constructor
        · rw [(ih _ _).1, hvld]
        · intro h
          rw [(ih _ _).2 (by rw [hvld]; exact h),
            is_cache_valid_frame cfg p σ h]
      · split
        · next u σa heq =>
          have hσa : σa = (os_remove p (is_cache_valid cfg p σ).2).2 :=
            (congrArg Prod.snd heq).symm
          have hld2 : σa.lockDepth = σ.lockDepth := by
            rw [hσa, (os_remove_frame p _).1, hvld]
          constructor
          · rw [(ih _ σa).1, hld2]
          · intro h
            rw [(ih _ σa).2 (by rw [hld2]; exact h), hσa,
              (os_remove_frame p _).2 (by rw [hvld]; exact h),
              is_cache_valid_frame cfg p σ h]
        · next e σa heq =>
          have hσa : σa = (os_remove p (is_cache_valid cfg p σ).2).2 :=
            (congrArg Prod.snd heq).symm
          have hld2 : σa.lockDepth = σ.lockDepth := by
            rw [hσa, (os_remove_frame p _).1, hvld]
          constructor
          · rw [(ih _ σa).1, hld2]
          · intro h
            rw [(ih _ σa).2 (by rw [hld2]; exact h), hσa,
              (os_remove_frame p _).2 (by rw [hvld]; exact h),
              is_cache_valid_frame cfg p σ h]
    · exact ih removed σ

theorem load_from_cache_locked {α : Type} (cfg : Config) (key : String)
    (σ : St α) :
    ((load_from_cache cfg key σ).2).unlocked = σ.unlocked := by
  have h1 : (0 : Nat) <
      ({ σ with lockDepth := σ.lockDepth + 1 } : St α).lockDepth := by simp
  have hvd : ((is_cache_valid cfg (get_cache_path key)
      ({ σ with lockDepth := σ.lockDepth + 1 } : St α)).2).lockDepth =
      σ.lockDepth + 1 := by
    rw [is_cache_valid_snd_lockDepth]
  have hvu : ((is_cache_valid cfg (get_cache_path key)
      ({ σ with lockDepth := σ.lockDepth + 1 } : St α)).2).unlocked =
      σ.unlocked :=
    is_cache_valid_frame cfg _ _ h1
  unfold load_from_cache withLock
  dsimp only
  split
  · exact hvu
  · split
    · next p σ2 heq =>
      have hσ2 : σ2 = touch (is_cache_valid cfg (get_cache_path key)
          ({ σ with lockDepth := σ.lockDepth + 1 } : St α)).2 :=
        (congrArg Prod.snd heq).symm
      rw [hσ2, touch_unlocked_locked _ (by rw [hvd]; omega), hvu]
    · next n σ2 heq =>
      have hσ2 : σ2 = touch (is_cache_valid cfg (get_cache_path key)
          ({ σ with lockDepth := σ.lockDepth + 1 } : St α)).2 :=
        (congrArg Prod.snd heq).symm
      rw [(removeCorrupt_frame (α := α) _ σ2).2
          (by rw [hσ2, touch_lockDepth, hvd]; omega),
        hσ2, touch_unlocked_locked _ (by rw [hvd]; omega), hvu]
    · next σ2 heq =>
      have hσ2 : σ2 = touch (is_cache_valid cfg (get_cache_path key)
          ({ σ with lockDepth := σ.lockDepth + 1 } : St α)).2 :=
        (congrArg Prod.snd heq).symm
      rw [hσ2, touch_unlocked_locked _ (by rw [hvd]; omega), hvu]
    · next σ2 heq =>
      have hσ2 : σ2 = touch (is_cache_valid cfg (get_cache_path key)
          ({ σ with lockDepth := σ.lockDepth + 1 } : St α)).2 :=
        (congrArg Prod.snd heq).symm
      rw [(removeCorrupt_frame (α := α) _ σ2).2
          (by rw [hσ2, touch_lockDepth, hvd]; omega),
        hσ2, touch_unlocked_locked _ (by rw [hvd]; omega), hvu]

theorem save_to_cache_locked {α : Type} (sz : α → Nat) (cfg : Config)
    (key : String) (data : α) (σ : St α) :
    ((save_to_cache sz cfg key data σ).2).unlocked = σ.unlocked := by
  have h1 : (0 : Nat) <
      ({ σ with lockDepth := σ.lockDepth + 1 } : St α).lockDepth := by simp
  unfold save_to_cache withLock
  dsimp only
  split
  · next e σa heq =>
    have hσa : σa = (openWrite (get_cache_path key ++ ".tmp")
        (Blob.pickled data) ({ σ with lockDepth := σ.lockDepth + 1 } : St α)).2 :=
      (congrArg Prod.snd heq).symm
    have hda : σa.lockDepth = σ.lockDepth + 1 := by
      rw [hσa, (openWrite_frame _ _ _).1]
    rw [(saveExceptBranch_frame (α := α) _ σa).2 (by rw [hda]; omega),
      hσa, (openWrite_frame _ _ _).2 h1]
  · next u σa heq =>
    have hσa : σa = (openWrite (get_cache_path key ++ ".tmp")
        (Blob.pickled data) ({ σ with lockDepth := σ.lockDepth + 1 } : St α)).2 :=
      (congrArg Prod.snd heq).symm
    have hda : σa.lockDepth = σ.lockDepth + 1 := by
      rw [hσa, (openWrite_frame _ _ _).1]
    have hua : σa.unlocked = σ.unlocked := by
      rw [hσa, (openWrite_frame _ _ _).2 h1]
    split
    · next e σb heq2 =>
      have hσb : σb = (os_replace (get_cache_path key ++ ".tmp")
          (get_cache_path key) σa).2 := (congrArg Prod.snd heq2).symm
      have hdb : σb.lockDepth = σ.lockDepth + 1 := by
        rw [hσb, (os_replace_frame _ _ _).1, hda]
      rw [(saveExceptBranch_frame (α := α) _ σb).2 (by rw [hdb]; omega),
        hσb, (os_replace_frame _ _ _).2 (by rw [hda]; omega), hua]
    · next u2 σb heq2 =>
      have hσb : σb = (os_replace (get_cache_path key ++ ".tmp")
          (get_cache_path key) σa).2 := (congrArg Prod.snd heq2).symm
      have hdb : σb.lockDepth = σ.lockDepth + 1 := by
        rw [hσb, (os_replace_frame _ _ _).1, hda]
      rw [(cleanup_if_needed_frame sz cfg σb).2 (by rw [hdb]; omega),
        hσb, (os_replace_frame _ _ _).2 (by rw [hda]; omega), hua]

theorem clear_cache_locked {α : Type} (σ : St α) :
    ((clear_cache σ).2).unlocked = σ.unlocked := by
  have h1 : (0 : Nat) <
      ({ σ with lockDepth := σ.lockDepth + 1 } : St α).lockDepth := by simp
  unfold clear_cache withLock
  dsimp only
  rw [(clearLoop_frame (α := α) _ _ _).2 (by simp),
    os_listdir_snd, touch_unlocked_locked _ h1]

theorem cleanup_expired_locked {α : Type} (cfg : Config) (σ : St α) :
    ((cleanup_expired cfg σ).2).unlocked = σ.unlocked := by
  have h1 : (0 : Nat) <
      ({ σ with lockDepth := σ.lockDepth + 1 } : St α).lockDepth := by simp
  unfold cleanup_expired withLock
  dsimp only
  rw [(expiredLoop_frame (α := α) _ _ _ _).2 (by simp),
    os_listdir_snd, touch_unlocked_locked _ h1]

/-- Counterexample to C7 as stated: `get_cache_stats` does **not** acquire the
per-instance lock (the Python method has no `with self._lock:`), so invoked
directly it touches the cache directory with the lock depth at zero — here it
performs unlocked directory accesses on a one-entry cache, contradicting "the
read-only statistics operation acquires the lock for the duration of the
operation". -/
theorem claim_C7_stats_unlocked :
    ¬ (((get_cache_stats szW cfgW σW).2).unlocked = σW.unlocked) := by
  decide

/-- C7 (amended): `load_from_cache`, `save_to_cache` (with its internal
eviction pass), `clear_cache` and `cleanup_expired` hold the instance's
reentrant lock for the duration of every access to the cache directory —
formally, they never add an unlocked directory access to any starting state.
`get_cache_stats`, contrary to the original claim, takes no lock (see the
counterexample). -/
theorem claim_C7_lock_discipline {α : Type} (sz : α → Nat) (cfg : Config) :
    (∀ (key : String) (σ : St α),
      ((load_from_cache cfg key σ).2).unlocked = σ.unlocked) ∧
    (∀ (key : String) (data : α) (σ : St α),
      ((save_to_cache sz cfg key data σ).2).unlocked = σ.unlocked) ∧
    (∀ σ : St α, ((clear_cache σ).2).unlocked = σ.unlocked) ∧
    (∀ σ : St α, ((cleanup_expired cfg σ).2).unlocked = σ.unlocked) :=
  ⟨fun key σ => load_from_cache_locked cfg key σ,
   fun key data σ => save_to_cache_locked sz cfg key data σ,
   fun σ => clear_cache_locked σ,
   fun σ => cleanup_expired_locked cfg σ⟩
